import Mathlib

/-!
Shallow embedding of the transaction engine from `src/main.rs`.

Amounts are `rust_decimal::Decimal` values in the source; the engine only
adds, subtracts and compares them, and that arithmetic is exact, so amounts
are modelled as rationals.  The three hash tables of `process_transactions`
(client map, transaction-record map, disputed-id set) are modelled as
association lists and a list of ids; lookup finds the first matching key,
insert replaces an existing binding, matching the map semantics used by the
source.  Each input record is `Ok` (a parsed transaction) or `Err`
(a record that failed to parse and is skipped).
-/

namespace TransactionEngine

inductive TransactionType where
  | Deposit
  | Withdrawal
  | Dispute
  | Resolve
  | Chargeback
deriving DecidableEq, Repr

structure Transaction where
  kind : TransactionType
  client_id : Nat
  id : Nat
  amount : Option ℚ
deriving DecidableEq, Repr

structure Client where
  available_funds : ℚ
  held_funds : ℚ
  total_funds : ℚ
  locked : Bool
deriving DecidableEq, Repr

/-- `Client::default()`: all balances zero, unlocked. -/
def defaultClient : Client := ⟨0, 0, 0, false⟩

structure TransactionRecord where
  client_id : Nat
  amount : ℚ
  transaction_type : TransactionType
deriving DecidableEq, Repr

/-- Association-list lookup: first binding of the key. -/
def lookupM {α : Type} (m : List (Nat × α)) (k : Nat) : Option α :=
  match m with
  | [] => none
  | (k', v) :: rest => if k' = k then some v else lookupM rest k

/-- Association-list insert with map semantics: replaces an existing binding. -/
def insertM {α : Type} (m : List (Nat × α)) (k : Nat) (v : α) : List (Nat × α) :=
  match m with
  | [] => [(k, v)]
  | (k', v') :: rest => if k' = k then (k, v) :: rest else (k', v') :: insertM rest k v

/-- Apply a function to the value bound to `k`, if any. -/
def updateClient (m : List (Nat × Client)) (k : Nat) (f : Client → Client) :
    List (Nat × Client) :=
  match m with
  | [] => []
  | (k', v) :: rest => if k' = k then (k', f v) :: rest else (k', v) :: updateClient rest k f

/-- `clients.entry(id).or_default()`: insert a default client if the key is absent. -/
def ensureClient (m : List (Nat × Client)) (k : Nat) : List (Nat × Client) :=
  match lookupM m k with
  | some _ => m
  | none => insertM m k defaultClient

/-- The client bound to `k`, defaulting to a fresh account (used after `ensureClient`,
where the key is always present). -/
def getClient (m : List (Nat × Client)) (k : Nat) : Client :=
  (lookupM m k).getD defaultClient

/-- Set removal (`HashSet::remove`). -/
def removeD (l : List Nat) (t : Nat) : List Nat :=
  l.filter (fun x => x != t)

/-- The three tables owned by one run of `process_transactions`. -/
structure EngineState where
  clients : List (Nat × Client)
  transaction_records : List (Nat × TransactionRecord)
  disputed_transaction : List Nat
deriving DecidableEq, Repr

def initState : EngineState := ⟨[], [], []⟩

/-- State after `clients.entry(client_id).or_default()` has run for the event's client. -/
def afterEntry (s : EngineState) (c : Nat) : EngineState :=
  ⟨ensureClient s.clients c, s.transaction_records, s.disputed_transaction⟩

/-- The `TransactionType::Deposit` arm of the match in `process_transactions`. -/
def depositArm (s : EngineState) (tx : Transaction) : EngineState :=
  if (lookupM s.transaction_records tx.id).isSome then s
  else
    match tx.amount with
    | none => s
    | some amount =>
        ⟨updateClient s.clients tx.client_id (fun cl =>
            ⟨cl.available_funds + amount, cl.held_funds, cl.total_funds + amount, cl.locked⟩),
         insertM s.transaction_records tx.id ⟨tx.client_id, amount, TransactionType.Deposit⟩,
         s.disputed_transaction⟩

/-- The `TransactionType::Withdrawal` arm. -/
def withdrawalArm (s : EngineState) (tx : Transaction) : EngineState :=
  if (lookupM s.transaction_records tx.id).isSome then s
  else
    match tx.amount with
    | none => s
    | some amount =>
        if (getClient s.clients tx.client_id).available_funds < amount then s
        else
          ⟨updateClient s.clients tx.client_id (fun cl =>
              ⟨cl.available_funds - amount, cl.held_funds, cl.total_funds - amount, cl.locked⟩),
           insertM s.transaction_records tx.id ⟨tx.client_id, amount, TransactionType.Withdrawal⟩,
           s.disputed_transaction⟩

/-- The `TransactionType::Dispute` arm. -/
def disputeArm (s : EngineState) (tx : Transaction) : EngineState :=
  if tx.id ∈ s.disputed_transaction then s
  else
    match lookupM s.transaction_records tx.id with
    | none => s
    | some tr =>
        if tr.client_id ≠ tx.client_id ∨ tr.transaction_type ≠ TransactionType.Deposit then s
        else if (getClient s.clients tx.client_id).available_funds < tr.amount then s
        else
          ⟨updateClient s.clients tx.client_id (fun cl =>
              ⟨cl.available_funds - tr.amount, cl.held_funds + tr.amount, cl.total_funds,
               cl.locked⟩),
           s.transaction_records,
           tx.id :: s.disputed_transaction⟩

/-- The `TransactionType::Resolve` arm. -/
def resolveArm (s : EngineState) (tx : Transaction) : EngineState :=
  if tx.id ∉ s.disputed_transaction then s
  else
    match lookupM s.transaction_records tx.id with
    | none => s
    | some tr =>
        if tr.client_id ≠ tx.client_id then s
        else
          ⟨updateClient s.clients tx.client_id (fun cl =>
              ⟨cl.available_funds + tr.amount, cl.held_funds - tr.amount, cl.total_funds,
               cl.locked⟩),
           s.transaction_records,
           removeD s.disputed_transaction tx.id⟩

/-- The `TransactionType::Chargeback` arm.  Note: the source performs no
client-id cross-check here. -/
def chargebackArm (s : EngineState) (tx : Transaction) : EngineState :=
  if tx.id ∉ s.disputed_transaction then s
  else
    match lookupM s.transaction_records tx.id with
    | none => s
    | some tr =>
        ⟨updateClient s.clients tx.client_id (fun cl =>
            ⟨cl.available_funds, cl.held_funds - tr.amount, cl.total_funds - tr.amount, true⟩),
         s.transaction_records,
         removeD s.disputed_transaction tx.id⟩

/-- Locked gate plus the kind dispatch, run on the state where the event's
client entry already exists. -/
def processKind (s : EngineState) (tx : Transaction) : EngineState :=
  if (getClient s.clients tx.client_id).locked then s
  else
    match tx.kind with
    | TransactionType.Deposit => depositArm s tx
    | TransactionType.Withdrawal => withdrawalArm s tx
    | TransactionType.Dispute => disputeArm s tx
    | TransactionType.Resolve => resolveArm s tx
    | TransactionType.Chargeback => chargebackArm s tx

/-- Processing of one parsed transaction: entry creation, locked gate,
kind dispatch. -/
def processOne (s : EngineState) (tx : Transaction) : EngineState :=
  processKind (afterEntry s tx.client_id) tx

/-- Processing of one input record: parse errors are skipped. -/
def processRecord (s : EngineState) (r : Except Unit Transaction) : EngineState :=
  match r with
  | Except.error _ => s
  | Except.ok tx => processOne s tx

/-- The loop body of `process_transactions` over the whole input. -/
def processList (s : EngineState) (l : List (Except Unit Transaction)) : EngineState :=
  match l with
  | [] => s
  | r :: rest => processList (processRecord s r) rest

/-- `process_transactions`: runs the loop from empty tables and returns the
client map, always `Ok`. -/
def process_transactions (l : List (Except Unit Transaction)) :
    Except Unit (List (Nat × Client)) :=
  Except.ok (processList initState l).clients

/-- The well-formed (successfully parsed) transactions of an input. -/
def oks (l : List (Except Unit Transaction)) : List Transaction :=
  l.filterMap (fun r =>
    match r with
    | Except.ok tx => some tx
    | Except.error _ => none)

/-! ### Association-list lemmas -/

theorem lookupM_insertM_self {α : Type} (m : List (Nat × α)) (k : Nat) (v : α) :
    lookupM (insertM m k v) k = some v := by
  induction m with
  | nil => simp [insertM, lookupM]
  | cons p rest ih =>
      obtain ⟨k', v'⟩ := p
      by_cases h : k' = k
      · simp [insertM, lookupM, h]
      · simp [insertM, lookupM, h, ih]

theorem lookupM_insertM_ne {α : Type} (m : List (Nat × α)) (k k' : Nat) (v : α)
    (h : k ≠ k') : lookupM (insertM m k v) k' = lookupM m k' := by
  induction m with
  | nil => simp [insertM, lookupM, h]
  | cons p rest ih =>
      obtain ⟨k0, v0⟩ := p
      by_cases h0 : k0 = k
      · subst h0
        simp [insertM, lookupM, h]
      · simp [insertM, lookupM, h0, ih]

theorem lookupM_updateClient_self (m : List (Nat × Client)) (k : Nat) (f : Client → Client) :
    lookupM (updateClient m k f) k = (lookupM m k).map f := by
  induction m with
  | nil => simp [updateClient, lookupM]
  | cons p rest ih =>
      obtain ⟨k0, v0⟩ := p
      by_cases h0 : k0 = k
      · simp [updateClient, lookupM, h0]
      · simp [updateClient, lookupM, h0, ih]

theorem lookupM_updateClient_ne (m : List (Nat × Client)) (k k' : Nat) (f : Client → Client)
    (h : k ≠ k') : lookupM (updateClient m k f) k' = lookupM m k' := by
  induction m with
  | nil => simp [updateClient, lookupM]
  | cons p rest ih =>
      obtain ⟨k0, v0⟩ := p
      by_cases h0 : k0 = k
      · subst h0
        simp [updateClient, lookupM, h, ih]
      · by_cases h1 : k0 = k'
        · simp [updateClient, lookupM, h0, h1, Ne.symm h]
        · simp [updateClient, lookupM, h0, h1, ih]

theorem ensureClient_of_some (m : List (Nat × Client)) (k : Nat) (cl : Client)
    (h : lookupM m k = some cl) : ensureClient m k = m := by
  simp [ensureClient, h]

theorem lookupM_ensureClient_self (m : List (Nat × Client)) (k : Nat) :
    lookupM (ensureClient m k) k = some (getClient m k) := by
  unfold ensureClient getClient
  cases h : lookupM m k with
  | some cl => simp [h]
  | none => simp [h, lookupM_insertM_self]

theorem lookupM_ensureClient_ne (m : List (Nat × Client)) (k k' : Nat) (h : k ≠ k') :
    lookupM (ensureClient m k) k' = lookupM m k' := by
  unfold ensureClient
  cases h0 : lookupM m k with
  | some cl => simp
  | none => simp [lookupM_insertM_ne m k k' defaultClient h]

theorem getClient_ensureClient_self (m : List (Nat × Client)) (k : Nat) :
    getClient (ensureClient m k) k = getClient m k := by
  simp [getClient, lookupM_ensureClient_self]

theorem getClient_of_some (m : List (Nat × Client)) (k : Nat) (cl : Client)
    (h : lookupM m k = some cl) : getClient m k = cl := by
  simp [getClient, h]

theorem isSome_lookupM_ensureClient (m : List (Nat × Client)) (k k' : Nat)
    (h : (lookupM m k').isSome) : (lookupM (ensureClient m k) k').isSome := by
  by_cases hk : k = k'
  · subst hk
    simp [lookupM_ensureClient_self]
  · rwa [lookupM_ensureClient_ne m k k' hk]

theorem isSome_lookupM_updateClient (m : List (Nat × Client)) (k k' : Nat) (f : Client → Client)
    (h : (lookupM m k').isSome) : (lookupM (updateClient m k f) k').isSome := by
  by_cases hk : k = k'
  · subst hk
    rw [lookupM_updateClient_self]
    cases h0 : lookupM m k with
    | none => rw [h0] at h; simp at h
    | some cl => simp
  · rwa [lookupM_updateClient_ne m k k' f hk]

theorem removeD_nodup (l : List Nat) (t : Nat) (h : l.Nodup) : (removeD l t).Nodup :=
  List.Nodup.filter _ h

theorem mem_removeD (l : List Nat) (t x : Nat) (h : x ∈ removeD l t) : x ∈ l :=
  List.mem_of_mem_filter h

theorem removeD_of_not_mem (l : List Nat) (t : Nat) (h : t ∉ l) : removeD l t = l := by
  induction l with
  | nil => rfl
  | cons a rest ih =>
      have ha : a ≠ t := fun hc => h (hc ▸ List.mem_cons_self a rest)
      have hrest : t ∉ rest := fun hc => h (List.mem_cons_of_mem a hc)
      simp [removeD] at ih ⊢
      exact ⟨ha, ih hrest⟩

/-! ### Per-arm characterization -/

theorem depositArm_skip (s : EngineState) (tx : Transaction)
    (h : (lookupM s.transaction_records tx.id).isSome ∨ tx.amount = none) :
    depositArm s tx = s := by
  unfold depositArm
  rcases h with h | h
  · simp [h]
  · cases h0 : (lookupM s.transaction_records tx.id).isSome
    · simp [h0, h]
    · simp [h0]

theorem depositArm_applied (s : EngineState) (tx : Transaction) (a : ℚ)
    (ha : tx.amount = some a) (hid : lookupM s.transaction_records tx.id = none) :
    depositArm s tx =
      ⟨updateClient s.clients tx.client_id (fun cl =>
          ⟨cl.available_funds + a, cl.held_funds, cl.total_funds + a, cl.locked⟩),
       insertM s.transaction_records tx.id ⟨tx.client_id, a, TransactionType.Deposit⟩,
       s.disputed_transaction⟩ := by
  unfold depositArm
  simp [hid, ha]

theorem depositArm_cases (s : EngineState) (tx : Transaction) :
    depositArm s tx = s ∨
    ∃ a, tx.amount = some a ∧ lookupM s.transaction_records tx.id = none ∧
      depositArm s tx =
        ⟨updateClient s.clients tx.client_id (fun cl =>
            ⟨cl.available_funds + a, cl.held_funds, cl.total_funds + a, cl.locked⟩),
         insertM s.transaction_records tx.id ⟨tx.client_id, a, TransactionType.Deposit⟩,
         s.disputed_transaction⟩ := by
  cases h0 : lookupM s.transaction_records tx.id with
  | some r => exact Or.inl (depositArm_skip s tx (Or.inl (by simp [h0])))
  | none =>
      cases ha : tx.amount with
      | none => exact Or.inl (depositArm_skip s tx (Or.inr ha))
      | some a => exact Or.inr ⟨a, rfl, rfl, depositArm_applied s tx a ha h0⟩

theorem withdrawalArm_skip (s : EngineState) (tx : Transaction)
    (h : (lookupM s.transaction_records tx.id).isSome ∨ tx.amount = none ∨
      ∃ a, tx.amount = some a ∧ (getClient s.clients tx.client_id).available_funds < a) :
    withdrawalArm s tx = s := by
  unfold withdrawalArm
  rcases h with h | h | ⟨a, ha, hlt⟩
  · simp [h]
  · cases h0 : (lookupM s.transaction_records tx.id).isSome
    · simp [h0, h]
    · simp [h0]
  · cases h0 : (lookupM s.transaction_records tx.id).isSome
    · simp [h0, ha, hlt]
    · simp [h0]

theorem withdrawalArm_applied (s : EngineState) (tx : Transaction) (a : ℚ)
    (ha : tx.amount = some a) (hid : lookupM s.transaction_records tx.id = none)
    (hav : ¬ (getClient s.clients tx.client_id).available_funds < a) :
    withdrawalArm s tx =
      ⟨updateClient s.clients tx.client_id (fun cl =>
          ⟨cl.available_funds - a, cl.held_funds, cl.total_funds - a, cl.locked⟩),
       insertM s.transaction_records tx.id ⟨tx.client_id, a, TransactionType.Withdrawal⟩,
       s.disputed_transaction⟩ := by
  unfold withdrawalArm
  simp [hid, ha, hav]

theorem withdrawalArm_cases (s : EngineState) (tx : Transaction) :
    withdrawalArm s tx = s ∨
    ∃ a, tx.amount = some a ∧ lookupM s.transaction_records tx.id = none ∧
      ¬ (getClient s.clients tx.client_id).available_funds < a ∧
      withdrawalArm s tx =
        ⟨updateClient s.clients tx.client_id (fun cl =>
            ⟨cl.available_funds - a, cl.held_funds, cl.total_funds - a, cl.locked⟩),
         insertM s.transaction_records tx.id ⟨tx.client_id, a, TransactionType.Withdrawal⟩,
         s.disputed_transaction⟩ := by
  cases h0 : lookupM s.transaction_records tx.id with
  | some r => exact Or.inl (withdrawalArm_skip s tx (Or.inl (by simp [h0])))
  | none =>
      cases ha : tx.amount with
      | none => exact Or.inl (withdrawalArm_skip s tx (Or.inr (Or.inl ha)))
      | some a =>
          by_cases hav : (getClient s.clients tx.client_id).available_funds < a
          · exact Or.inl (withdrawalArm_skip s tx (Or.inr (Or.inr ⟨a, ha, hav⟩)))
          · exact Or.inr ⟨a, rfl, rfl, hav, withdrawalArm_applied s tx a ha h0 hav⟩

theorem disputeArm_skip (s : EngineState) (tx : Transaction)
    (h : tx.id ∈ s.disputed_transaction ∨ lookupM s.transaction_records tx.id = none ∨
      (∃ r, lookupM s.transaction_records tx.id = some r ∧
        (r.client_id ≠ tx.client_id ∨ r.transaction_type ≠ TransactionType.Deposit)) ∨
      (∃ r, lookupM s.transaction_records tx.id = some r ∧
        (getClient s.clients tx.client_id).available_funds < r.amount)) :
    disputeArm s tx = s := by
  unfold disputeArm
  rcases h with h | h | ⟨r, hr, hbad⟩ | ⟨r, hr, hlt⟩
  · simp [h]
  · by_cases hd : tx.id ∈ s.disputed_transaction
    · simp [hd]
    · simp [hd, h]
  · by_cases hd : tx.id ∈ s.disputed_transaction
    · simp [hd]
    · simp [hd, hr, hbad]
  · by_cases hd : tx.id ∈ s.disputed_transaction
    · simp [hd]
    · by_cases hbad : r.client_id ≠ tx.client_id ∨ r.transaction_type ≠ TransactionType.Deposit
      · simp [hd, hr, hbad]
      · simp [hd, hr, hbad, hlt]

theorem disputeArm_applied (s : EngineState) (tx : Transaction) (r : TransactionRecord)
    (hd : tx.id ∉ s.disputed_transaction) (hr : lookupM s.transaction_records tx.id = some r)
    (hc : r.client_id = tx.client_id) (ht : r.transaction_type = TransactionType.Deposit)
    (hav : ¬ (getClient s.clients tx.client_id).available_funds < r.amount) :
    disputeArm s tx =
      ⟨updateClient s.clients tx.client_id (fun cl =>
          ⟨cl.available_funds - r.amount, cl.held_funds + r.amount, cl.total_funds, cl.locked⟩),
       s.transaction_records,
       tx.id :: s.disputed_transaction⟩ := by
  unfold disputeArm
  simp [hd, hr, hc, ht, hav]

theorem disputeArm_cases (s : EngineState) (tx : Transaction) :
    disputeArm s tx = s ∨
    ∃ r, tx.id ∉ s.disputed_transaction ∧ lookupM s.transaction_records tx.id = some r ∧
      r.client_id = tx.client_id ∧ r.transaction_type = TransactionType.Deposit ∧
      ¬ (getClient s.clients tx.client_id).available_funds < r.amount ∧
      disputeArm s tx =
        ⟨updateClient s.clients tx.client_id (fun cl =>
            ⟨cl.available_funds - r.amount, cl.held_funds + r.amount, cl.total_funds,
             cl.locked⟩),
         s.transaction_records,
         tx.id :: s.disputed_transaction⟩ := by
  by_cases hd : tx.id ∈ s.disputed_transaction
  · exact Or.inl (disputeArm_skip s tx (Or.inl hd))
  · cases hr : lookupM s.transaction_records tx.id with
    | none => exact Or.inl (disputeArm_skip s tx (Or.inr (Or.inl hr)))
    | some r =>
        by_cases hbad : r.client_id ≠ tx.client_id ∨ r.transaction_type ≠ TransactionType.Deposit
        · exact Or.inl (disputeArm_skip s tx (Or.inr (Or.inr (Or.inl ⟨r, hr, hbad⟩))))
        · push_neg at hbad
          by_cases hav : (getClient s.clients tx.client_id).available_funds < r.amount
          · exact Or.inl (disputeArm_skip s tx (Or.inr (Or.inr (Or.inr ⟨r, hr, hav⟩))))
          · exact Or.inr ⟨r, hd, rfl, hbad.1, hbad.2, hav,
              disputeArm_applied s tx r hd hr hbad.1 hbad.2 hav⟩

theorem resolveArm_skip (s : EngineState) (tx : Transaction)
    (h : tx.id ∉ s.disputed_transaction ∨ lookupM s.transaction_records tx.id = none ∨
      ∃ r, lookupM s.transaction_records tx.id = some r ∧ r.client_id ≠ tx.client_id) :
    resolveArm s tx = s := by
  unfold resolveArm
  rcases h with h | h | ⟨r, hr, hne⟩
  · simp [h]
  · by_cases hd : tx.id ∈ s.disputed_transaction
    · simp [hd, h]
    · simp [hd]
  · by_cases hd : tx.id ∈ s.disputed_transaction
    · simp [hd, hr, hne]
    · simp [hd]

theorem resolveArm_applied (s : EngineState) (tx : Transaction) (r : TransactionRecord)
    (hd : tx.id ∈ s.disputed_transaction) (hr : lookupM s.transaction_records tx.id = some r)
    (hc : r.client_id = tx.client_id) :
    resolveArm s tx =
      ⟨updateClient s.clients tx.client_id (fun cl =>
          ⟨cl.available_funds + r.amount, cl.held_funds - r.amount, cl.total_funds, cl.locked⟩),
       s.transaction_records,
       removeD s.disputed_transaction tx.id⟩ := by
  unfold resolveArm
  simp [hd, hr, hc]

theorem resolveArm_cases (s : EngineState) (tx : Transaction) :
    resolveArm s tx = s ∨
    ∃ r, tx.id ∈ s.disputed_transaction ∧ lookupM s.transaction_records tx.id = some r ∧
      r.client_id = tx.client_id ∧
      resolveArm s tx =
        ⟨updateClient s.clients tx.client_id (fun cl =>
            ⟨cl.available_funds + r.amount, cl.held_funds - r.amount, cl.total_funds,
             cl.locked⟩),
         s.transaction_records,
         removeD s.disputed_transaction tx.id⟩ := by
  by_cases hd : tx.id ∈ s.disputed_transaction
  · cases hr : lookupM s.transaction_records tx.id with
    | none => exact Or.inl (resolveArm_skip s tx (Or.inr (Or.inl hr)))
    | some r =>
        by_cases hc : r.client_id = tx.client_id
        · exact Or.inr ⟨r, hd, rfl, hc, resolveArm_applied s tx r hd hr hc⟩
        · exact Or.inl (resolveArm_skip s tx (Or.inr (Or.inr ⟨r, hr, hc⟩)))
  · exact Or.inl (resolveArm_skip s tx (Or.inl hd))

theorem chargebackArm_skip (s : EngineState) (tx : Transaction)
    (h : tx.id ∉ s.disputed_transaction ∨ lookupM s.transaction_records tx.id = none) :
    chargebackArm s tx = s := by
  unfold chargebackArm
  rcases h with h | h
  · simp [h]
  · by_cases hd : tx.id ∈ s.disputed_transaction
    · simp [hd, h]
    · simp [hd]

theorem chargebackArm_applied (s : EngineState) (tx : Transaction) (r : TransactionRecord)
    (hd : tx.id ∈ s.disputed_transaction) (hr : lookupM s.transaction_records tx.id = some r) :
    chargebackArm s tx =
      ⟨updateClient s.clients tx.client_id (fun cl =>
          ⟨cl.available_funds, cl.held_funds - r.amount, cl.total_funds - r.amount, true⟩),
       s.transaction_records,
       removeD s.disputed_transaction tx.id⟩ := by
  unfold chargebackArm
  simp [hd, hr]

theorem chargebackArm_cases (s : EngineState) (tx : Transaction) :
    chargebackArm s tx = s ∨
    ∃ r, tx.id ∈ s.disputed_transaction ∧ lookupM s.transaction_records tx.id = some r ∧
      chargebackArm s tx =
        ⟨updateClient s.clients tx.client_id (fun cl =>
            ⟨cl.available_funds, cl.held_funds - r.amount, cl.total_funds - r.amount, true⟩),
         s.transaction_records,
         removeD s.disputed_transaction tx.id⟩ := by
  by_cases hd : tx.id ∈ s.disputed_transaction
  · cases hr : lookupM s.transaction_records tx.id with
    | none => exact Or.inl (chargebackArm_skip s tx (Or.inr hr))
    | some r => exact Or.inr ⟨r, hd, rfl, chargebackArm_applied s tx r hd hr⟩
  · exact Or.inl (chargebackArm_skip s tx (Or.inl hd))

theorem processKind_locked (s0 : EngineState) (tx : Transaction)
    (h : (getClient s0.clients tx.client_id).locked = true) : processKind s0 tx = s0 := by
  simp [processKind, h]

theorem processKind_unlocked (s0 : EngineState) (tx : Transaction)
    (h : (getClient s0.clients tx.client_id).locked = false) :
    processKind s0 tx =
      match tx.kind with
      | TransactionType.Deposit => depositArm s0 tx
      | TransactionType.Withdrawal => withdrawalArm s0 tx
      | TransactionType.Dispute => disputeArm s0 tx
      | TransactionType.Resolve => resolveArm s0 tx
      | TransactionType.Chargeback => chargebackArm s0 tx := by
  simp [processKind, h]

/-- Exhaustive description of one engine step: either the event is skipped
(the state changes only by the lazy creation of the client entry), or one of
the five arms applies with all of its guards satisfied. -/
theorem processOne_cases (s : EngineState) (tx : Transaction) :
    processOne s tx = afterEntry s tx.client_id ∨
    ((getClient s.clients tx.client_id).locked = false ∧
     ((∃ a, tx.kind = TransactionType.Deposit ∧ tx.amount = some a ∧
        lookupM s.transaction_records tx.id = none ∧
        processOne s tx =
          ⟨updateClient (ensureClient s.clients tx.client_id) tx.client_id (fun cl =>
              ⟨cl.available_funds + a, cl.held_funds, cl.total_funds + a, cl.locked⟩),
           insertM s.transaction_records tx.id ⟨tx.client_id, a, TransactionType.Deposit⟩,
           s.disputed_transaction⟩) ∨
      (∃ a, tx.kind = TransactionType.Withdrawal ∧ tx.amount = some a ∧
        lookupM s.transaction_records tx.id = none ∧
        ¬ (getClient s.clients tx.client_id).available_funds < a ∧
        processOne s tx =
          ⟨updateClient (ensureClient s.clients tx.client_id) tx.client_id (fun cl =>
              ⟨cl.available_funds - a, cl.held_funds, cl.total_funds - a, cl.locked⟩),
           insertM s.transaction_records tx.id ⟨tx.client_id, a, TransactionType.Withdrawal⟩,
           s.disputed_transaction⟩) ∨
      (∃ r, tx.kind = TransactionType.Dispute ∧ tx.id ∉ s.disputed_transaction ∧
        lookupM s.transaction_records tx.id = some r ∧ r.client_id = tx.client_id ∧
        r.transaction_type = TransactionType.Deposit ∧
        ¬ (getClient s.clients tx.client_id).available_funds < r.amount ∧
        processOne s tx =
          ⟨updateClient (ensureClient s.clients tx.client_id) tx.client_id (fun cl =>
              ⟨cl.available_funds - r.amount, cl.held_funds + r.amount, cl.total_funds,
               cl.locked⟩),
           s.transaction_records,
           tx.id :: s.disputed_transaction⟩) ∨
      (∃ r, tx.kind = TransactionType.Resolve ∧ tx.id ∈ s.disputed_transaction ∧
        lookupM s.transaction_records tx.id = some r ∧ r.client_id = tx.client_id ∧
        processOne s tx =
          ⟨updateClient (ensureClient s.clients tx.client_id) tx.client_id (fun cl =>
              ⟨cl.available_funds + r.amount, cl.held_funds - r.amount, cl.total_funds,
               cl.locked⟩),
           s.transaction_records,
           removeD s.disputed_transaction tx.id⟩) ∨
      (∃ r, tx.kind = TransactionType.Chargeback ∧ tx.id ∈ s.disputed_transaction ∧
        lookupM s.transaction_records tx.id = some r ∧
        processOne s tx =
          ⟨updateClient (ensureClient s.clients tx.client_id) tx.client_id (fun cl =>
              ⟨cl.available_funds, cl.held_funds - r.amount, cl.total_funds - r.amount, true⟩),
           s.transaction_records,
           removeD s.disputed_transaction tx.id⟩))) := by
  have hg : getClient (ensureClient s.clients tx.client_id) tx.client_id
      = getClient s.clients tx.client_id := getClient_ensureClient_self _ _
  by_cases hl : (getClient s.clients tx.client_id).locked = true
  · refine Or.inl ?_
    show processKind (afterEntry s tx.client_id) tx = _
    refine processKind_locked _ _ ?_
    show (getClient (ensureClient s.clients tx.client_id) tx.client_id).locked = true
    rw [hg]
    exact hl
  · have hl' : (getClient s.clients tx.client_id).locked = false := by
      cases h : (getClient s.clients tx.client_id).locked
      · rfl
      · exact absurd h hl
    have hal : (getClient (afterEntry s tx.client_id).clients tx.client_id).locked = false := by
      show (getClient (ensureClient s.clients tx.client_id) tx.client_id).locked = false
      rw [hg]
      exact hl'
    have hpk := processKind_unlocked (afterEntry s tx.client_id) tx hal
    cases htk : tx.kind with
    | Deposit =>
        have hpo : processOne s tx = depositArm (afterEntry s tx.client_id) tx := by
          show processKind (afterEntry s tx.client_id) tx = _
          rw [hpk, htk]
        rcases depositArm_cases (afterEntry s tx.client_id) tx with h | ⟨a, ha, hid, heq⟩
        · exact Or.inl (hpo.trans h)
        · exact Or.inr ⟨hl', Or.inl ⟨a, rfl, ha, hid, hpo.trans heq⟩⟩
    | Withdrawal =>
        have hpo : processOne s tx = withdrawalArm (afterEntry s tx.client_id) tx := by
          show processKind (afterEntry s tx.client_id) tx = _
          rw [hpk, htk]
        rcases withdrawalArm_cases (afterEntry s tx.client_id) tx with h | ⟨a, ha, hid, hav, heq⟩
        · exact Or.inl (hpo.trans h)
        · have hav' : ¬ (getClient s.clients tx.client_id).available_funds < a := by
            have he : (getClient (afterEntry s tx.client_id).clients tx.client_id)
                = getClient s.clients tx.client_id := hg
            rw [he] at hav
            exact hav
          exact Or.inr ⟨hl', Or.inr (Or.inl ⟨a, rfl, ha, hid, hav', hpo.trans heq⟩)⟩
    | Dispute =>
        have hpo : processOne s tx = disputeArm (afterEntry s tx.client_id) tx := by
          show processKind (afterEntry s tx.client_id) tx = _
          rw [hpk, htk]
        rcases disputeArm_cases (afterEntry s tx.client_id) tx with
          h | ⟨r, hd, hr, hc, ht, hav, heq⟩
        · exact Or.inl (hpo.trans h)
        · have hav' : ¬ (getClient s.clients tx.client_id).available_funds < r.amount := by
            have he : (getClient (afterEntry s tx.client_id).clients tx.client_id)
                = getClient s.clients tx.client_id := hg
            rw [he] at hav
            exact hav
          exact Or.inr ⟨hl', Or.inr (Or.inr (Or.inl
            ⟨r, rfl, hd, hr, hc, ht, hav', hpo.trans heq⟩))⟩
    | Resolve =>
        have hpo : processOne s tx = resolveArm (afterEntry s tx.client_id) tx := by
          show processKind (afterEntry s tx.client_id) tx = _
          rw [hpk, htk]
        rcases resolveArm_cases (afterEntry s tx.client_id) tx with h | ⟨r, hd, hr, hc, heq⟩
        · exact Or.inl (hpo.trans h)
        · exact Or.inr ⟨hl', Or.inr (Or.inr (Or.inr (Or.inl
            ⟨r, rfl, hd, hr, hc, hpo.trans heq⟩)))⟩
    | Chargeback =>
        have hpo : processOne s tx = chargebackArm (afterEntry s tx.client_id) tx := by
          show processKind (afterEntry s tx.client_id) tx = _
          rw [hpk, htk]
        rcases chargebackArm_cases (afterEntry s tx.client_id) tx with h | ⟨r, hd, hr, heq⟩
        · exact Or.inl (hpo.trans h)
        · exact Or.inr ⟨hl', Or.inr (Or.inr (Or.inr (Or.inr
            ⟨r, rfl, hd, hr, hpo.trans heq⟩)))⟩

/-! ### The total = available + held invariant (C2) -/

/-- Every client account in the map satisfies `total == available + held`. -/
def TotInv (s : EngineState) : Prop :=
  ∀ c cl, lookupM s.clients c = some cl →
    cl.total_funds = cl.available_funds + cl.held_funds

theorem totInv_getClient (s : EngineState) (h : TotInv s) (c : Nat) :
    (getClient s.clients c).total_funds
      = (getClient s.clients c).available_funds + (getClient s.clients c).held_funds := by
  unfold getClient
  cases hl : lookupM s.clients c with
  | none => simp [defaultClient]
  | some cl => simpa using h c cl hl

theorem totInv_ensure (s : EngineState) (c0 : Nat) (h : TotInv s) :
    ∀ c cl, lookupM (ensureClient s.clients c0) c = some cl →
      cl.total_funds = cl.available_funds + cl.held_funds := by
  intro c cl hc
  by_cases hcc : c0 = c
  · subst hcc
    rw [lookupM_ensureClient_self] at hc
    have : getClient s.clients c0 = cl := by injection hc
    rw [← this]
    exact totInv_getClient s h c0
  · rw [lookupM_ensureClient_ne _ _ _ hcc] at hc
    exact h c cl hc

theorem totInv_updateEnsure (s : EngineState) (c0 : Nat) (f : Client → Client)
    (h : TotInv s)
    (hf : ∀ cl, cl.total_funds = cl.available_funds + cl.held_funds →
      (f cl).total_funds = (f cl).available_funds + (f cl).held_funds) :
    ∀ c cl, lookupM (updateClient (ensureClient s.clients c0) c0 f) c = some cl →
      cl.total_funds = cl.available_funds + cl.held_funds := by
  intro c cl hc
  by_cases hcc : c0 = c
  · subst hcc
    rw [lookupM_updateClient_self, lookupM_ensureClient_self] at hc
    have : f (getClient s.clients c0) = cl := by
      simpa using hc
    rw [← this]
    exact hf _ (totInv_getClient s h c0)
  · rw [lookupM_updateClient_ne _ _ _ _ hcc] at hc
    exact totInv_ensure s c0 h c cl hc

theorem totInv_step (s : EngineState) (tx : Transaction) (h : TotInv s) :
    TotInv (processOne s tx) := by
  rcases processOne_cases s tx with heq | ⟨hl, hc⟩
  · rw [heq]
    intro c cl hcl
    exact totInv_ensure s tx.client_id h c cl hcl
  · rcases hc with ⟨a, hk, ha, hid, heq⟩ | ⟨a, hk, ha, hid, hav, heq⟩ |
      ⟨r, hk, hd, hr, hrc, hrt, hav, heq⟩ | ⟨r, hk, hd, hr, hrc, heq⟩ | ⟨r, hk, hd, hr, heq⟩
    · rw [heq]
      intro c cl hcl
      refine totInv_updateEnsure s tx.client_id _ h ?_ c cl hcl
      intro cl0 h0
      simp [h0]
      try ring
    · rw [heq]
      intro c cl hcl
      refine totInv_updateEnsure s tx.client_id _ h ?_ c cl hcl
      intro cl0 h0
      simp [h0]
      try ring
    · rw [heq]
      intro c cl hcl
      refine totInv_updateEnsure s tx.client_id _ h ?_ c cl hcl
      intro cl0 h0
      simp [h0]
      try ring
    · rw [heq]
      intro c cl hcl
      refine totInv_updateEnsure s tx.client_id _ h ?_ c cl hcl
      intro cl0 h0
      simp [h0]
      try ring
    · rw [heq]
      intro c cl hcl
      refine totInv_updateEnsure s tx.client_id _ h ?_ c cl hcl
      intro cl0 h0
      simp [h0]
      try ring

theorem totInv_processRecord (s : EngineState) (r : Except Unit Transaction) (h : TotInv s) :
    TotInv (processRecord s r) := by
  cases r with
  | error e => exact h
  | ok tx => exact totInv_step s tx h

theorem totInv_processList (l : List (Except Unit Transaction)) :
    ∀ s : EngineState, TotInv s → TotInv (processList s l) := by
  induction l with
  | nil => intro s h; exact h
  | cons r rest ih =>
      intro s h
      exact ih (processRecord s r) (totInv_processRecord s r h)

theorem totInv_initState : TotInv initState := by
  intro c cl hc
  simp [initState, lookupM] at hc

theorem processList_append (l1 l2 : List (Except Unit Transaction)) (s : EngineState) :
    processList s (l1 ++ l2) = processList (processList s l1) l2 := by
  induction l1 generalizing s with
  | nil => rfl
  | cons r rest ih => simp [processList, ih]

/-- **C2**: for every finite input event sequence, after every event processed by
`process_transactions` and for every client in the resulting map,
`total_funds == available_funds + held_funds`.  (Every intermediate state is the
result of running some input list, so quantifying over all input lists covers
the state after every event.) -/
theorem c2_total_eq_available_plus_held (l : List (Except Unit Transaction)) (c : Nat)
    (cl : Client) (h : lookupM (processList initState l).clients c = some cl) :
    cl.total_funds = cl.available_funds + cl.held_funds :=
  totInv_processList l initState totInv_initState c cl h

theorem c2_total_eq_available_plus_held_witness :
    (⟨(5 : ℚ), 0, 5, false⟩ : Client).total_funds
      = (⟨(5 : ℚ), 0, 5, false⟩ : Client).available_funds
        + (⟨(5 : ℚ), 0, 5, false⟩ : Client).held_funds :=
  c2_total_eq_available_plus_held
    [Except.ok ⟨TransactionType.Deposit, 1, 1, some 5⟩] 1 ⟨5, 0, 5, false⟩
    (by norm_num [processList, processRecord, processOne, processKind, afterEntry,
      depositArm, ensureClient, getClient, lookupM, insertM, updateClient,
      defaultClient, initState])

/-! ### A locked account is frozen (C3) -/

theorem locked_lookup_step (s : EngineState) (tx : Transaction) (c : Nat) (cl : Client)
    (h : lookupM s.clients c = some cl) (hlk : cl.locked = true) :
    lookupM (processOne s tx).clients c = some cl := by
  rcases processOne_cases s tx with heq | ⟨hl, hcases⟩
  · rw [heq]
    show lookupM (ensureClient s.clients tx.client_id) c = some cl
    by_cases hcc : tx.client_id = c
    · subst hcc
      rw [ensureClient_of_some _ _ _ h]
      exact h
    · rw [lookupM_ensureClient_ne _ _ _ hcc]
      exact h
  · by_cases hcc : tx.client_id = c
    · subst hcc
      rw [getClient_of_some _ _ _ h] at hl
      rw [hlk] at hl
      exact absurd hl (by simp)
    · rcases hcases with ⟨a, hk, ha, hid, heq⟩ | ⟨a, hk, ha, hid, hav, heq⟩ |
        ⟨r, hk, hd, hr, hrc, hrt, hav, heq⟩ | ⟨r, hk, hd, hr, hrc, heq⟩ | ⟨r, hk, hd, hr, heq⟩
      all_goals
        rw [heq]
        show lookupM (updateClient (ensureClient s.clients tx.client_id) tx.client_id _) c
          = some cl
        rw [lookupM_updateClient_ne _ _ _ _ hcc, lookupM_ensureClient_ne _ _ _ hcc]
        exact h

theorem locked_lookup_list (l : List (Except Unit Transaction)) :
    ∀ (s : EngineState) (c : Nat) (cl : Client), lookupM s.clients c = some cl →
      cl.locked = true → lookupM (processList s l).clients c = some cl := by
  induction l with
  | nil => intro s c cl h _; exact h
  | cons r rest ih =>
      intro s c cl h hlk
      cases r with
      | error e => exact ih s c cl h hlk
      | ok tx => exact ih _ c cl (locked_lookup_step s tx c cl h hlk) hlk

/-- **C3**: once a client's locked flag becomes true, no subsequent event (of any
kind, for any client id) changes that client's available, held, total or locked
fields: the whole account entry is preserved verbatim through any continuation
of the input. -/
theorem c3_locked_account_frozen (l1 l2 : List (Except Unit Transaction)) (c : Nat)
    (cl : Client) (h : lookupM (processList initState l1).clients c = some cl)
    (hlk : cl.locked = true) :
    lookupM (processList initState (l1 ++ l2)).clients c = some cl := by
  rw [processList_append]
  exact locked_lookup_list l2 _ c cl h hlk

theorem c3_locked_account_frozen_witness :
    lookupM (processList initState
        ([Except.ok ⟨TransactionType.Deposit, 1, 1, some 5⟩,
          Except.ok ⟨TransactionType.Dispute, 1, 1, none⟩,
          Except.ok ⟨TransactionType.Chargeback, 1, 1, none⟩] ++
         [Except.ok ⟨TransactionType.Deposit, 1, 2, some 7⟩,
          Except.ok ⟨TransactionType.Withdrawal, 2, 3, some 1⟩])).clients 1
      = some ⟨0, 0, 0, true⟩ :=
  c3_locked_account_frozen
    [Except.ok ⟨TransactionType.Deposit, 1, 1, some 5⟩,
     Except.ok ⟨TransactionType.Dispute, 1, 1, none⟩,
     Except.ok ⟨TransactionType.Chargeback, 1, 1, none⟩]
    [Except.ok ⟨TransactionType.Deposit, 1, 2, some 7⟩,
     Except.ok ⟨TransactionType.Withdrawal, 2, 3, some 1⟩] 1 ⟨0, 0, 0, true⟩
    (by norm_num [processList, processRecord, processOne, processKind, afterEntry,
      depositArm, withdrawalArm, disputeArm, resolveArm, chargebackArm, ensureClient,
      getClient, lookupM, insertM, updateClient, removeD, defaultClient, initState])
    rfl

/-! ### Reduction helpers for single events -/

theorem afterEntry_of_some (s : EngineState) (c : Nat)
    (h : (lookupM s.clients c).isSome = true) : afterEntry s c = s := by
  unfold afterEntry
  cases hc : lookupM s.clients c with
  | none => rw [hc] at h; simp at h
  | some cl => rw [ensureClient_of_some _ _ _ hc]

theorem processOne_locked_eq (s : EngineState) (tx : Transaction)
    (hl : (getClient s.clients tx.client_id).locked = true) :
    processOne s tx = afterEntry s tx.client_id := by
  show processKind (afterEntry s tx.client_id) tx = _
  refine processKind_locked _ _ ?_
  show (getClient (ensureClient s.clients tx.client_id) tx.client_id).locked = true
  rw [getClient_ensureClient_self]
  exact hl

theorem processOne_unlocked_arm (s : EngineState) (tx : Transaction)
    (hl : (getClient s.clients tx.client_id).locked = false) :
    processOne s tx =
      match tx.kind with
      | TransactionType.Deposit => depositArm (afterEntry s tx.client_id) tx
      | TransactionType.Withdrawal => withdrawalArm (afterEntry s tx.client_id) tx
      | TransactionType.Dispute => disputeArm (afterEntry s tx.client_id) tx
      | TransactionType.Resolve => resolveArm (afterEntry s tx.client_id) tx
      | TransactionType.Chargeback => chargebackArm (afterEntry s tx.client_id) tx := by
  show processKind (afterEntry s tx.client_id) tx = _
  refine processKind_unlocked _ _ ?_
  show (getClient (ensureClient s.clients tx.client_id) tx.client_id).locked = false
  rw [getClient_ensureClient_self]
  exact hl

theorem processOne_deposit_applied (s : EngineState) (tx : Transaction) (a : ℚ)
    (hk : tx.kind = TransactionType.Deposit)
    (hl : (getClient s.clients tx.client_id).locked = false)
    (ha : tx.amount = some a)
    (hid : lookupM s.transaction_records tx.id = none) :
    processOne s tx =
      ⟨updateClient (ensureClient s.clients tx.client_id) tx.client_id (fun cl =>
          ⟨cl.available_funds + a, cl.held_funds, cl.total_funds + a, cl.locked⟩),
       insertM s.transaction_records tx.id ⟨tx.client_id, a, TransactionType.Deposit⟩,
       s.disputed_transaction⟩ := by
  rw [processOne_unlocked_arm s tx hl, hk]
  exact depositArm_applied (afterEntry s tx.client_id) tx a ha hid

theorem processOne_withdrawal_applied (s : EngineState) (tx : Transaction) (a : ℚ)
    (hk : tx.kind = TransactionType.Withdrawal)
    (hl : (getClient s.clients tx.client_id).locked = false)
    (ha : tx.amount = some a)
    (hid : lookupM s.transaction_records tx.id = none)
    (hav : ¬ (getClient s.clients tx.client_id).available_funds < a) :
    processOne s tx =
      ⟨updateClient (ensureClient s.clients tx.client_id) tx.client_id (fun cl =>
          ⟨cl.available_funds - a, cl.held_funds, cl.total_funds - a, cl.locked⟩),
       insertM s.transaction_records tx.id ⟨tx.client_id, a, TransactionType.Withdrawal⟩,
       s.disputed_transaction⟩ := by
  rw [processOne_unlocked_arm s tx hl, hk]
  rw [← getClient_ensureClient_self s.clients tx.client_id] at hav
  exact withdrawalArm_applied (afterEntry s tx.client_id) tx a ha hid hav

theorem processOne_dispute_applied (s : EngineState) (tx : Transaction) (r : TransactionRecord)
    (hk : tx.kind = TransactionType.Dispute)
    (hl : (getClient s.clients tx.client_id).locked = false)
    (hd : tx.id ∉ s.disputed_transaction)
    (hr : lookupM s.transaction_records tx.id = some r)
    (hc : r.client_id = tx.client_id)
    (ht : r.transaction_type = TransactionType.Deposit)
    (hav : ¬ (getClient s.clients tx.client_id).available_funds < r.amount) :
    processOne s tx =
      ⟨updateClient (ensureClient s.clients tx.client_id) tx.client_id (fun cl =>
          ⟨cl.available_funds - r.amount, cl.held_funds + r.amount, cl.total_funds, cl.locked⟩),
       s.transaction_records,
       tx.id :: s.disputed_transaction⟩ := by
  rw [processOne_unlocked_arm s tx hl, hk]
  rw [← getClient_ensureClient_self s.clients tx.client_id] at hav
  exact disputeArm_applied (afterEntry s tx.client_id) tx r hd hr hc ht hav

theorem processOne_resolve_applied (s : EngineState) (tx : Transaction) (r : TransactionRecord)
    (hk : tx.kind = TransactionType.Resolve)
    (hl : (getClient s.clients tx.client_id).locked = false)
    (hd : tx.id ∈ s.disputed_transaction)
    (hr : lookupM s.transaction_records tx.id = some r)
    (hc : r.client_id = tx.client_id) :
    processOne s tx =
      ⟨updateClient (ensureClient s.clients tx.client_id) tx.client_id (fun cl =>
          ⟨cl.available_funds + r.amount, cl.held_funds - r.amount, cl.total_funds, cl.locked⟩),
       s.transaction_records,
       removeD s.disputed_transaction tx.id⟩ := by
  rw [processOne_unlocked_arm s tx hl, hk]
  exact resolveArm_applied (afterEntry s tx.client_id) tx r hd hr hc

theorem processOne_chargeback_applied (s : EngineState) (tx : Transaction)
    (r : TransactionRecord)
    (hk : tx.kind = TransactionType.Chargeback)
    (hl : (getClient s.clients tx.client_id).locked = false)
    (hd : tx.id ∈ s.disputed_transaction)
    (hr : lookupM s.transaction_records tx.id = some r) :
    processOne s tx =
      ⟨updateClient (ensureClient s.clients tx.client_id) tx.client_id (fun cl =>
          ⟨cl.available_funds, cl.held_funds - r.amount, cl.total_funds - r.amount, true⟩),
       s.transaction_records,
       removeD s.disputed_transaction tx.id⟩ := by
  rw [processOne_unlocked_arm s tx hl, hk]
  exact chargebackArm_applied (afterEntry s tx.client_id) tx r hd hr

/-- All the conditions under which the decision procedure skips an event:
locked account, and the per-kind `continue` guards of `process_transactions`. -/
def skippedEvent (s : EngineState) (tx : Transaction) : Prop :=
  (getClient s.clients tx.client_id).locked = true ∨
  (tx.kind = TransactionType.Deposit ∧
    ((lookupM s.transaction_records tx.id).isSome = true ∨ tx.amount = none)) ∨
  (tx.kind = TransactionType.Withdrawal ∧
    ((lookupM s.transaction_records tx.id).isSome = true ∨ tx.amount = none ∨
     (∃ a, tx.amount = some a ∧ (getClient s.clients tx.client_id).available_funds < a))) ∨
  (tx.kind = TransactionType.Dispute ∧
    (tx.id ∈ s.disputed_transaction ∨ lookupM s.transaction_records tx.id = none ∨
     (∃ r, lookupM s.transaction_records tx.id = some r ∧
       (r.client_id ≠ tx.client_id ∨ r.transaction_type ≠ TransactionType.Deposit)) ∨
     (∃ r, lookupM s.transaction_records tx.id = some r ∧
       (getClient s.clients tx.client_id).available_funds < r.amount))) ∨
  (tx.kind = TransactionType.Resolve ∧
    (tx.id ∉ s.disputed_transaction ∨ lookupM s.transaction_records tx.id = none ∨
     (∃ r, lookupM s.transaction_records tx.id = some r ∧ r.client_id ≠ tx.client_id))) ∨
  (tx.kind = TransactionType.Chargeback ∧
    (tx.id ∉ s.disputed_transaction ∨ lookupM s.transaction_records tx.id = none))

theorem processOne_skip_eq (s : EngineState) (tx : Transaction) (h : skippedEvent s tx) :
    processOne s tx = afterEntry s tx.client_id := by
  by_cases hl : (getClient s.clients tx.client_id).locked = true
  · exact processOne_locked_eq s tx hl
  · have hl' : (getClient s.clients tx.client_id).locked = false := by
      cases h0 : (getClient s.clients tx.client_id).locked
      · rfl
      · exact absurd h0 hl
    rcases h with hlk | ⟨hk, hc⟩ | ⟨hk, hc⟩ | ⟨hk, hc⟩ | ⟨hk, hc⟩ | ⟨hk, hc⟩
    · exact absurd hlk hl
    · rw [processOne_unlocked_arm s tx hl', hk]
      exact depositArm_skip _ tx hc
    · rw [processOne_unlocked_arm s tx hl', hk]
      refine withdrawalArm_skip _ tx ?_
      rcases hc with h0 | h0 | ⟨a, ha, hlt⟩
      · exact Or.inl h0
      · exact Or.inr (Or.inl h0)
      · rw [← getClient_ensureClient_self s.clients tx.client_id] at hlt
        exact Or.inr (Or.inr ⟨a, ha, hlt⟩)
    · rw [processOne_unlocked_arm s tx hl', hk]
      refine disputeArm_skip _ tx ?_
      rcases hc with h0 | h0 | ⟨r, hr, hbad⟩ | ⟨r, hr, hlt⟩
      · exact Or.inl h0
      · exact Or.inr (Or.inl h0)
      · exact Or.inr (Or.inr (Or.inl ⟨r, hr, hbad⟩))
      · rw [← getClient_ensureClient_self s.clients tx.client_id] at hlt
        exact Or.inr (Or.inr (Or.inr ⟨r, hr, hlt⟩))
    · rw [processOne_unlocked_arm s tx hl', hk]
      exact resolveArm_skip _ tx hc
    · rw [processOne_unlocked_arm s tx hl', hk]
      exact chargebackArm_skip _ tx hc

/-- **C9**: every skip path is atomic: the state after a skipped event equals the
state before it except for the lazy creation of the event's client entry, and a
client that did not exist is created with zero balances and `locked = false`. -/
theorem c9_skip_atomic (s : EngineState) (tx : Transaction) (h : skippedEvent s tx) :
    processOne s tx = afterEntry s tx.client_id ∧
    (lookupM s.clients tx.client_id = none →
      lookupM (processOne s tx).clients tx.client_id = some defaultClient) := by
  have heq := processOne_skip_eq s tx h
  refine ⟨heq, ?_⟩
  intro hnone
  rw [heq]
  show lookupM (ensureClient s.clients tx.client_id) tx.client_id = some defaultClient
  rw [lookupM_ensureClient_self]
  unfold getClient
  rw [hnone]
  rfl

theorem c9_skip_atomic_witness :
    processOne initState ⟨TransactionType.Dispute, 3, 9, none⟩ = afterEntry initState 3 ∧
    lookupM (processOne initState ⟨TransactionType.Dispute, 3, 9, none⟩).clients 3
      = some defaultClient := by
  have h := c9_skip_atomic initState ⟨TransactionType.Dispute, 3, 9, none⟩
    (Or.inr (Or.inr (Or.inr (Or.inl ⟨rfl, Or.inr (Or.inl rfl)⟩))))
  exact ⟨h.1, h.2 rfl⟩

/-- C6 as frozen is false: a replayed transaction id is ignored, but the
`entry(...).or_default()` call still creates a fresh zero account when the
replaying event names a client id that has no account yet, so the overall state
does change.  Here tx id 1 was used by an applied deposit of client 1, and a
deposit replaying id 1 for the unseen client 2 changes the state. -/
theorem c6_counterexample :
    (lookupM (processList initState
        [Except.ok ⟨TransactionType.Deposit, 1, 1, some 5⟩]).transaction_records 1).isSome
      = true ∧
    processOne (processList initState [Except.ok ⟨TransactionType.Deposit, 1, 1, some 5⟩])
        ⟨TransactionType.Deposit, 2, 1, some 7⟩
      ≠ processList initState [Except.ok ⟨TransactionType.Deposit, 1, 1, some 5⟩] := by
  constructor
  · norm_num [processList, processRecord, processOne, processKind, afterEntry,
      depositArm, ensureClient, getClient, lookupM, insertM, updateClient,
      defaultClient, initState]
  · intro hcontra
    have h2 := congrArg (fun st => lookupM st.clients 2) hcontra
    norm_num [processList, processRecord, processOne, processKind, afterEntry,
      depositArm, ensureClient, getClient, lookupM, insertM, updateClient,
      defaultClient, initState] at h2
    exact Option.noConfusion h2

/-- **C6** (amended): processing a Deposit or Withdrawal whose transaction id
already has a record leaves the records, the dispute set and every existing
account unchanged; the only possible change is the lazy creation of a default
account for the event's client id, so when that client already has an account
the state is unchanged verbatim. -/
theorem c6_duplicate_txid_noop (s : EngineState) (tx : Transaction)
    (hk : tx.kind = TransactionType.Deposit ∨ tx.kind = TransactionType.Withdrawal)
    (hdup : (lookupM s.transaction_records tx.id).isSome = true) :
    processOne s tx = afterEntry s tx.client_id ∧
    ((lookupM s.clients tx.client_id).isSome = true → processOne s tx = s) := by
  have hskip : skippedEvent s tx := by
    rcases hk with hk | hk
    · exact Or.inr (Or.inl ⟨hk, Or.inl hdup⟩)
    · exact Or.inr (Or.inr (Or.inl ⟨hk, Or.inl hdup⟩))
  have heq := processOne_skip_eq s tx hskip
  exact ⟨heq, fun hsome => heq.trans (afterEntry_of_some s tx.client_id hsome)⟩

theorem c6_duplicate_txid_noop_witness :
    processOne (processList initState [Except.ok ⟨TransactionType.Deposit, 1, 1, some 5⟩])
        ⟨TransactionType.Withdrawal, 1, 1, some 2⟩
      = processList initState [Except.ok ⟨TransactionType.Deposit, 1, 1, some 5⟩] :=
  (c6_duplicate_txid_noop
      (processList initState [Except.ok ⟨TransactionType.Deposit, 1, 1, some 5⟩])
      ⟨TransactionType.Withdrawal, 1, 1, some 2⟩ (Or.inr rfl)
      (by norm_num [processList, processRecord, processOne, processKind, afterEntry,
        depositArm, ensureClient, getClient, lookupM, insertM, updateClient,
        defaultClient, initState])).2
    (by norm_num [processList, processRecord, processOne, processKind, afterEntry,
      depositArm, ensureClient, getClient, lookupM, insertM, updateClient,
      defaultClient, initState])

/-- C4 as frozen is false: in the source a withdrawal does insert a
`TransactionRecord`, and the Deposit arm skips on any existing record, so a
deposit whose transaction id was previously used only by a withdrawal is
skipped even though no deposit-typed record exists for that id.  After
deposit(c1, tx1, 5) and withdrawal(c1, tx2, 1), the record under tx 2 is a
Withdrawal record, yet deposit(c1, tx2, 3) is a complete no-op: available
stays 4 instead of increasing to 7. -/
theorem c4_counterexample :
    lookupM (processList initState
        [Except.ok ⟨TransactionType.Deposit, 1, 1, some 5⟩,
         Except.ok ⟨TransactionType.Withdrawal, 1, 2, some 1⟩]).transaction_records 2
      = some ⟨1, 1, TransactionType.Withdrawal⟩ ∧
    lookupM (processList initState
        [Except.ok ⟨TransactionType.Deposit, 1, 1, some 5⟩,
         Except.ok ⟨TransactionType.Withdrawal, 1, 2, some 1⟩]).clients 1
      = some ⟨4, 0, 4, false⟩ ∧
    processOne (processList initState
        [Except.ok ⟨TransactionType.Deposit, 1, 1, some 5⟩,
         Except.ok ⟨TransactionType.Withdrawal, 1, 2, some 1⟩])
        ⟨TransactionType.Deposit, 1, 2, some 3⟩
      = processList initState
          [Except.ok ⟨TransactionType.Deposit, 1, 1, some 5⟩,
           Except.ok ⟨TransactionType.Withdrawal, 1, 2, some 1⟩] := by
  refine ⟨?_, ?_, ?_⟩ <;>
    norm_num [processList, processRecord, processOne, processKind, afterEntry,
      depositArm, withdrawalArm, ensureClient, getClient, lookupM, insertM,
      updateClient, defaultClient, initState]

/-- **C4** (amended): a Deposit against an unlocked account is skipped exactly
when its amount is absent or any transaction record — deposit or withdrawal —
already exists under its transaction id; otherwise available and total each
increase by the amount and a deposit record (client id, amount) is created
under the transaction id. -/
theorem c4_deposit_applies_iff (s : EngineState) (tx : Transaction)
    (hk : tx.kind = TransactionType.Deposit)
    (hl : (getClient s.clients tx.client_id).locked = false) :
    ((tx.amount = none ∨ (lookupM s.transaction_records tx.id).isSome = true) ↔
      processOne s tx = afterEntry s tx.client_id) ∧
    (∀ a, tx.amount = some a → lookupM s.transaction_records tx.id = none →
      lookupM (processOne s tx).clients tx.client_id
        = some ⟨(getClient s.clients tx.client_id).available_funds + a,
                (getClient s.clients tx.client_id).held_funds,
                (getClient s.clients tx.client_id).total_funds + a,
                (getClient s.clients tx.client_id).locked⟩ ∧
      lookupM (processOne s tx).transaction_records tx.id
        = some ⟨tx.client_id, a, TransactionType.Deposit⟩ ∧
      (processOne s tx).disputed_transaction = s.disputed_transaction) := by
  constructor
  · constructor
    · intro hcond
      refine processOne_skip_eq s tx (Or.inr (Or.inl ⟨hk, ?_⟩))
      rcases hcond with h | h
      · exact Or.inr h
      · exact Or.inl h
    · intro heq
      by_contra hcon
      push_neg at hcon
      obtain ⟨hamt, hdup⟩ := hcon
      have hid : lookupM s.transaction_records tx.id = none := by
        cases h0 : lookupM s.transaction_records tx.id with
        | none => rfl
        | some r => rw [h0] at hdup; simp at hdup
      obtain ⟨a, ha⟩ : ∃ a, tx.amount = some a := by
        cases h0 : tx.amount with
        | none => exact absurd h0 hamt
        | some a => exact ⟨a, rfl⟩
      have happ := processOne_deposit_applied s tx a hk hl ha hid
      rw [happ] at heq
      have hrec := congrArg EngineState.transaction_records heq
      have h2 : lookupM (insertM s.transaction_records tx.id
          ⟨tx.client_id, a, TransactionType.Deposit⟩) tx.id
          = lookupM s.transaction_records tx.id := by
        rw [show (insertM s.transaction_records tx.id
            ⟨tx.client_id, a, TransactionType.Deposit⟩) = s.transaction_records from hrec]
      rw [lookupM_insertM_self, hid] at h2
      simp at h2
  · intro a ha hid
    have happ := processOne_deposit_applied s tx a hk hl ha hid
    rw [happ]
    refine ⟨?_, ?_, rfl⟩
    · show lookupM (updateClient (ensureClient s.clients tx.client_id) tx.client_id _)
          tx.client_id = _
      rw [lookupM_updateClient_self, lookupM_ensureClient_self]
      rfl
    · show lookupM (insertM s.transaction_records tx.id _) tx.id = _
      rw [lookupM_insertM_self]

theorem c4_deposit_applies_iff_witness :
    lookupM (processOne initState ⟨TransactionType.Deposit, 1, 1, some 5⟩).clients 1
      = some ⟨(getClient initState.clients 1).available_funds + 5,
              (getClient initState.clients 1).held_funds,
              (getClient initState.clients 1).total_funds + 5,
              (getClient initState.clients 1).locked⟩ :=
  ((c4_deposit_applies_iff initState ⟨TransactionType.Deposit, 1, 1, some 5⟩ rfl rfl).2
    5 rfl rfl).1

/-- **C10**: the engine performs no positivity validation on deposit amounts: a
Deposit with any present amount (zero or negative included), a fresh
transaction id and an unlocked account is applied, adding the amount to both
available and total. -/
theorem c10_no_positivity_check (s : EngineState) (tx : Transaction) (a : ℚ)
    (hk : tx.kind = TransactionType.Deposit)
    (hl : (getClient s.clients tx.client_id).locked = false)
    (ha : tx.amount = some a)
    (hid : lookupM s.transaction_records tx.id = none) :
    lookupM (processOne s tx).clients tx.client_id
      = some ⟨(getClient s.clients tx.client_id).available_funds + a,
              (getClient s.clients tx.client_id).held_funds,
              (getClient s.clients tx.client_id).total_funds + a,
              (getClient s.clients tx.client_id).locked⟩ ∧
    lookupM (processOne s tx).transaction_records tx.id
      = some ⟨tx.client_id, a, TransactionType.Deposit⟩ := by
  have happ := processOne_deposit_applied s tx a hk hl ha hid
  rw [happ]
  constructor
  · show lookupM (updateClient (ensureClient s.clients tx.client_id) tx.client_id _)
        tx.client_id = _
    rw [lookupM_updateClient_self, lookupM_ensureClient_self]
    rfl
  · show lookupM (insertM s.transaction_records tx.id _) tx.id = _
    rw [lookupM_insertM_self]

theorem c10_no_positivity_check_witness :
    lookupM (processOne initState ⟨TransactionType.Deposit, 7, 42, some (-5)⟩).clients 7
      = some ⟨-5, 0, -5, false⟩ := by
  have h := (c10_no_positivity_check initState ⟨TransactionType.Deposit, 7, 42, some (-5)⟩
    (-5) rfl rfl rfl rfl).1
  rw [h]
  norm_num [getClient, initState, lookupM, defaultClient]

/-- **C5**: a Dispute against an unlocked account is skipped exactly when its
transaction id is already disputed, or no deposit-typed record exists for it
(a withdrawal record does not count), or the record's owner differs from the
event's client, or available < record.amount; otherwise available decreases and
held increases by record.amount, the id joins the dispute set, and total and
the records table are unchanged. -/
theorem c5_dispute_applies_iff (s : EngineState) (tx : Transaction)
    (hk : tx.kind = TransactionType.Dispute)
    (hl : (getClient s.clients tx.client_id).locked = false) :
    ((tx.id ∈ s.disputed_transaction ∨ lookupM s.transaction_records tx.id = none ∨
      (∃ r, lookupM s.transaction_records tx.id = some r ∧
        (r.client_id ≠ tx.client_id ∨ r.transaction_type ≠ TransactionType.Deposit)) ∨
      (∃ r, lookupM s.transaction_records tx.id = some r ∧
        (getClient s.clients tx.client_id).available_funds < r.amount)) ↔
      processOne s tx = afterEntry s tx.client_id) ∧
    (∀ r, tx.id ∉ s.disputed_transaction → lookupM s.transaction_records tx.id = some r →
      r.client_id = tx.client_id → r.transaction_type = TransactionType.Deposit →
      ¬ (getClient s.clients tx.client_id).available_funds < r.amount →
      lookupM (processOne s tx).clients tx.client_id
        = some ⟨(getClient s.clients tx.client_id).available_funds - r.amount,
                (getClient s.clients tx.client_id).held_funds + r.amount,
                (getClient s.clients tx.client_id).total_funds,
                (getClient s.clients tx.client_id).locked⟩ ∧
      (processOne s tx).disputed_transaction = tx.id :: s.disputed_transaction ∧
      (processOne s tx).transaction_records = s.transaction_records) := by
  constructor
  · constructor
    · intro hcond
      exact processOne_skip_eq s tx (Or.inr (Or.inr (Or.inr (Or.inl ⟨hk, hcond⟩))))
    · intro heq
      by_contra hcon
      have hA : tx.id ∉ s.disputed_transaction := fun h => hcon (Or.inl h)
      have hB : lookupM s.transaction_records tx.id ≠ none :=
        fun h => hcon (Or.inr (Or.inl h))
      cases h0 : lookupM s.transaction_records tx.id with
      | none => exact hB h0
      | some r =>
          have hc1 : r.client_id = tx.client_id := by
            by_contra hne
            exact hcon (Or.inr (Or.inr (Or.inl ⟨r, h0, Or.inl hne⟩)))
          have hc2 : r.transaction_type = TransactionType.Deposit := by
            by_contra hne
            exact hcon (Or.inr (Or.inr (Or.inl ⟨r, h0, Or.inr hne⟩)))
          have hav : ¬ (getClient s.clients tx.client_id).available_funds < r.amount := by
            intro hlt
            exact hcon (Or.inr (Or.inr (Or.inr ⟨r, h0, hlt⟩)))
          have happ := processOne_dispute_applied s tx r hk hl hA h0 hc1 hc2 hav
          rw [happ] at heq
          have hdis := congrArg EngineState.disputed_transaction heq
          have hlen := congrArg List.length hdis
          simp [afterEntry] at hlen
  · intro r hd hr hc1 hc2 hav
    have happ := processOne_dispute_applied s tx r hk hl hd hr hc1 hc2 hav
    rw [happ]
    refine ⟨?_, rfl, rfl⟩
    show lookupM (updateClient (ensureClient s.clients tx.client_id) tx.client_id _)
        tx.client_id = _
    rw [lookupM_updateClient_self, lookupM_ensureClient_self]
    rfl

theorem c5_dispute_applies_iff_witness :
    lookupM (processOne (processList initState
        [Except.ok ⟨TransactionType.Deposit, 1, 1, some 5⟩])
        ⟨TransactionType.Dispute, 1, 1, none⟩).clients 1
      = some ⟨0, 5, 5, false⟩ := by
  have h := ((c5_dispute_applies_iff
      (processList initState [Except.ok ⟨TransactionType.Deposit, 1, 1, some 5⟩])
      ⟨TransactionType.Dispute, 1, 1, none⟩ rfl
      (by norm_num [processList, processRecord, processOne, processKind, afterEntry,
        depositArm, ensureClient, getClient, lookupM, insertM, updateClient,
        defaultClient, initState])).2
    ⟨1, 5, TransactionType.Deposit⟩
    (by norm_num [processList, processRecord, processOne, processKind, afterEntry,
      depositArm, ensureClient, getClient, lookupM, insertM, updateClient,
      defaultClient, initState])
    (by norm_num [processList, processRecord, processOne, processKind, afterEntry,
      depositArm, ensureClient, getClient, lookupM, insertM, updateClient,
      defaultClient, initState])
    rfl rfl
    (by norm_num [processList, processRecord, processOne, processKind, afterEntry,
      depositArm, ensureClient, getClient, lookupM, insertM, updateClient,
      defaultClient, initState])).1
  rw [h]
  norm_num [processList, processRecord, processOne, processKind, afterEntry,
    depositArm, ensureClient, getClient, lookupM, insertM, updateClient,
    defaultClient, initState]

/-- **C7**: when a Dispute for (t, c) is accepted, the immediately following
Resolve for the same (t, c) is accepted too, and it restores the client's
available and held balances exactly to their pre-dispute values; the total
balance is untouched by both events. -/
theorem c7_dispute_resolve_roundtrip (s : EngineState) (c t : Nat) (r : TransactionRecord)
    (hl : (getClient s.clients c).locked = false)
    (hd : t ∉ s.disputed_transaction)
    (hr : lookupM s.transaction_records t = some r)
    (hc : r.client_id = c)
    (ht : r.transaction_type = TransactionType.Deposit)
    (hav : ¬ (getClient s.clients c).available_funds < r.amount) :
    (getClient (processOne (processOne s ⟨TransactionType.Dispute, c, t, none⟩)
          ⟨TransactionType.Resolve, c, t, none⟩).clients c).available_funds
        = (getClient s.clients c).available_funds ∧
    (getClient (processOne (processOne s ⟨TransactionType.Dispute, c, t, none⟩)
          ⟨TransactionType.Resolve, c, t, none⟩).clients c).held_funds
        = (getClient s.clients c).held_funds ∧
    (getClient (processOne s ⟨TransactionType.Dispute, c, t, none⟩).clients c).total_funds
        = (getClient s.clients c).total_funds ∧
    (getClient (processOne (processOne s ⟨TransactionType.Dispute, c, t, none⟩)
          ⟨TransactionType.Resolve, c, t, none⟩).clients c).total_funds
        = (getClient s.clients c).total_funds := by
  have h1 := processOne_dispute_applied s ⟨TransactionType.Dispute, c, t, none⟩ r rfl
    hl hd hr hc ht hav
  have hcl1 : lookupM (processOne s ⟨TransactionType.Dispute, c, t, none⟩).clients c
      = some ⟨(getClient s.clients c).available_funds - r.amount,
              (getClient s.clients c).held_funds + r.amount,
              (getClient s.clients c).total_funds,
              (getClient s.clients c).locked⟩ := by
    rw [h1]
    show lookupM (updateClient (ensureClient s.clients c) c _) c = _
    rw [lookupM_updateClient_self, lookupM_ensureClient_self]
    rfl
  have hget1 := getClient_of_some _ _ _ hcl1
  have hl1 : (getClient (processOne s ⟨TransactionType.Dispute, c, t, none⟩).clients c).locked
      = false := by
    rw [hget1]
    exact hl
  have hd1 : t ∈ (processOne s ⟨TransactionType.Dispute, c, t, none⟩).disputed_transaction := by
    rw [h1]
    exact List.mem_cons_self t _
  have hr1 : lookupM
      (processOne s ⟨TransactionType.Dispute, c, t, none⟩).transaction_records t = some r := by
    rw [h1]
    exact hr
  have h2 := processOne_resolve_applied (processOne s ⟨TransactionType.Dispute, c, t, none⟩)
    ⟨TransactionType.Resolve, c, t, none⟩ r rfl hl1 hd1 hr1 hc
  have hcl2 : lookupM (processOne (processOne s ⟨TransactionType.Dispute, c, t, none⟩)
        ⟨TransactionType.Resolve, c, t, none⟩).clients c
      = some ⟨(getClient s.clients c).available_funds - r.amount + r.amount,
              (getClient s.clients c).held_funds + r.amount - r.amount,
              (getClient s.clients c).total_funds,
              (getClient s.clients c).locked⟩ := by
    rw [h2]
    show lookupM (updateClient
        (ensureClient (processOne s ⟨TransactionType.Dispute, c, t, none⟩).clients c) c _) c = _
    rw [lookupM_updateClient_self, lookupM_ensureClient_self, hget1]
    rfl
  have hget2 := getClient_of_some _ _ _ hcl2
  refine ⟨?_, ?_, ?_, ?_⟩
  · rw [hget2]
    show (getClient s.clients c).available_funds - r.amount + r.amount
      = (getClient s.clients c).available_funds
    ring
  · rw [hget2]
    show (getClient s.clients c).held_funds + r.amount - r.amount
      = (getClient s.clients c).held_funds
    ring
  · rw [hget1]
  · rw [hget2]

theorem c7_dispute_resolve_roundtrip_witness :
    (getClient (processOne (processOne
          (processList initState [Except.ok ⟨TransactionType.Deposit, 1, 1, some 5⟩])
          ⟨TransactionType.Dispute, 1, 1, none⟩)
          ⟨TransactionType.Resolve, 1, 1, none⟩).clients 1).available_funds
      = (getClient (processList initState
          [Except.ok ⟨TransactionType.Deposit, 1, 1, some 5⟩]).clients 1).available_funds :=
  (c7_dispute_resolve_roundtrip
    (processList initState [Except.ok ⟨TransactionType.Deposit, 1, 1, some 5⟩]) 1 1
    ⟨1, 5, TransactionType.Deposit⟩
    (by norm_num [processList, processRecord, processOne, processKind, afterEntry,
      depositArm, ensureClient, getClient, lookupM, insertM, updateClient,
      defaultClient, initState])
    (by norm_num [processList, processRecord, processOne, processKind, afterEntry,
      depositArm, ensureClient, getClient, lookupM, insertM, updateClient,
      defaultClient, initState])
    (by norm_num [processList, processRecord, processOne, processKind, afterEntry,
      depositArm, ensureClient, getClient, lookupM, insertM, updateClient,
      defaultClient, initState])
    rfl rfl
    (by norm_num [processList, processRecord, processOne, processKind, afterEntry,
      depositArm, ensureClient, getClient, lookupM, insertM, updateClient,
      defaultClient, initState])).1

/-! ### The run never fails and observes every client (C8) -/

theorem processOne_clients_shape (s : EngineState) (tx : Transaction) :
    (processOne s tx).clients = ensureClient s.clients tx.client_id ∨
    ∃ f, (processOne s tx).clients
      = updateClient (ensureClient s.clients tx.client_id) tx.client_id f := by
  rcases processOne_cases s tx with heq | ⟨hl, hcases⟩
  · left
    rw [heq]
    rfl
  · rcases hcases with ⟨a, hk, ha, hid, heq⟩ | ⟨a, hk, ha, hid, hav, heq⟩ |
      ⟨r, hk, hd, hr, hrc, hrt, hav, heq⟩ | ⟨r, hk, hd, hr, hrc, heq⟩ | ⟨r, hk, hd, hr, heq⟩
    all_goals
      right
      exact ⟨_, by rw [heq]⟩

theorem clients_isSome_step (s : EngineState) (tx : Transaction) (c : Nat)
    (h : (lookupM s.clients c).isSome = true) :
    (lookupM (processOne s tx).clients c).isSome = true := by
  rcases processOne_clients_shape s tx with heq | ⟨f, heq⟩
  · rw [heq]
    exact isSome_lookupM_ensureClient _ _ _ h
  · rw [heq]
    exact isSome_lookupM_updateClient _ _ _ _ (isSome_lookupM_ensureClient _ _ _ h)

theorem clients_isSome_self (s : EngineState) (tx : Transaction) :
    (lookupM (processOne s tx).clients tx.client_id).isSome = true := by
  have hbase : (lookupM (ensureClient s.clients tx.client_id) tx.client_id).isSome = true := by
    rw [lookupM_ensureClient_self]
    rfl
  rcases processOne_clients_shape s tx with heq | ⟨f, heq⟩
  · rw [heq]
    exact hbase
  · rw [heq]
    exact isSome_lookupM_updateClient _ _ _ _ hbase

theorem clients_isSome_list (l : List (Except Unit Transaction)) :
    ∀ (s : EngineState) (c : Nat), (lookupM s.clients c).isSome = true →
      (lookupM (processList s l).clients c).isSome = true := by
  induction l with
  | nil => intro s c h; exact h
  | cons r rest ih =>
      intro s c h
      cases r with
      | error e => exact ih s c h
      | ok tx => exact ih (processOne s tx) c (clients_isSome_step s tx c h)

theorem oks_client_present (l : List (Except Unit Transaction)) :
    ∀ (s : EngineState) (tx : Transaction), tx ∈ oks l →
      (lookupM (processList s l).clients tx.client_id).isSome = true := by
  induction l with
  | nil => intro s tx h; simp [oks] at h
  | cons r rest ih =>
      intro s tx h
      cases r with
      | error e =>
          have hmem : tx ∈ oks rest := by simpa [oks] using h
          exact ih s tx hmem
      | ok tx0 =>
          have hmem : tx = tx0 ∨ tx ∈ oks rest := by simpa [oks] using h
          rcases hmem with rfl | hmem
          · exact clients_isSome_list rest (processOne s tx) tx.client_id
              (clients_isSome_self s tx)
          · exact ih (processOne s tx0) tx hmem

/-- **C8**: `process_transactions` always returns `Ok` — no individual event
surfaces an error — and the returned map has an entry for every client id that
appears in at least one well-formed (successfully parsed) event. -/
theorem c8_never_fails_and_covers_clients (l : List (Except Unit Transaction)) :
    process_transactions l = Except.ok (processList initState l).clients ∧
    ∀ tx, tx ∈ oks l →
      (lookupM (processList initState l).clients tx.client_id).isSome = true :=
  ⟨rfl, fun tx htx => oks_client_present l initState tx htx⟩

theorem c8_never_fails_and_covers_clients_witness :
    process_transactions
        [Except.error (), Except.ok ⟨TransactionType.Deposit, 1, 1, some 5⟩]
      = Except.ok (processList initState
          [Except.error (), Except.ok ⟨TransactionType.Deposit, 1, 1, some 5⟩]).clients ∧
    (lookupM (processList initState
        [Except.error (), Except.ok ⟨TransactionType.Deposit, 1, 1, some 5⟩]).clients
        1).isSome = true := by
  have h := c8_never_fails_and_covers_clients
    [Except.error (), Except.ok ⟨TransactionType.Deposit, 1, 1, some 5⟩]
  exact ⟨h.1, h.2 ⟨TransactionType.Deposit, 1, 1, some 5⟩ (by simp [oks])⟩

/-! ### Non-negative balances (C1): the held-funds accounting invariant -/

/-- Contribution of one disputed transaction id to a client's held funds. -/
def contrib (records : List (Nat × TransactionRecord)) (c : Nat) (t : Nat) : ℚ :=
  match lookupM records t with
  | none => 0
  | some r => if r.client_id = c then r.amount else 0

/-- The amount a client's held funds must equal: the sum of the recorded
amounts of the currently disputed transactions owned by that client. -/
def owed (records : List (Nat × TransactionRecord)) (disputed : List Nat) (c : Nat) : ℚ :=
  (disputed.map (contrib records c)).sum

theorem contrib_nonneg (records : List (Nat × TransactionRecord)) (c t : Nat)
    (h : ∀ t' r, lookupM records t' = some r → 0 ≤ r.amount) :
    0 ≤ contrib records c t := by
  unfold contrib
  cases hr : lookupM records t with
  | none => norm_num
  | some r =>
      by_cases hc : r.client_id = c
      · simpa [hc] using h t r hr
      · simp [hc]

theorem owed_cons (records : List (Nat × TransactionRecord)) (disputed : List Nat)
    (c t : Nat) :
    owed records (t :: disputed) c = contrib records c t + owed records disputed c := by
  simp [owed]

theorem owed_nonneg (records : List (Nat × TransactionRecord)) (disputed : List Nat)
    (c : Nat) (h : ∀ t r, lookupM records t = some r → 0 ≤ r.amount) :
    0 ≤ owed records disputed c := by
  induction disputed with
  | nil => simp [owed]
  | cons t rest ih =>
      rw [owed_cons]
      exact add_nonneg (contrib_nonneg records c t h) ih

theorem owed_congr_records (records records' : List (Nat × TransactionRecord))
    (disputed : List Nat) (c : Nat)
    (h : ∀ t, t ∈ disputed → lookupM records' t = lookupM records t) :
    owed records' disputed c = owed records disputed c := by
  induction disputed with
  | nil => rfl
  | cons t rest ih =>
      rw [owed_cons, owed_cons]
      have hc : contrib records' c t = contrib records c t := by
        unfold contrib
        rw [h t (List.mem_cons_self t rest)]
      rw [hc, ih (fun t' ht' => h t' (List.mem_cons_of_mem t ht'))]

theorem owed_insertM_fresh (records : List (Nat × TransactionRecord)) (disputed : List Nat)
    (c k : Nat) (v : TransactionRecord) (h : ∀ t, t ∈ disputed → t ≠ k) :
    owed (insertM records k v) disputed c = owed records disputed c :=
  owed_congr_records records (insertM records k v) disputed c
    (fun t ht => lookupM_insertM_ne records k t v (fun hk => (h t ht) hk.symm))

theorem owed_removeD (records : List (Nat × TransactionRecord)) (disputed : List Nat)
    (c t : Nat) (hnd : disputed.Nodup) (hmem : t ∈ disputed) :
    owed records (removeD disputed t) c
      = owed records disputed c - contrib records c t := by
  induction disputed with
  | nil => cases hmem
  | cons a l ih =>
      rcases List.mem_cons.mp hmem with heq | hmem'
      · subst heq
        have hnotin : t ∉ l := (List.nodup_cons.mp hnd).1
        have h1 : removeD (t :: l) t = removeD l t := by simp [removeD]
        rw [h1, removeD_of_not_mem l t hnotin, owed_cons]
        ring
      · have ha : a ≠ t := by
          intro hat
          subst hat
          exact (List.nodup_cons.mp hnd).1 hmem'
        have h1 : removeD (a :: l) t = a :: removeD l t := by simp [removeD, ha]
        rw [h1, owed_cons, owed_cons, ih (List.nodup_cons.mp hnd).2 hmem']
        ring

theorem owed_eq_zero (records : List (Nat × TransactionRecord)) (disputed : List Nat)
    (clients : List (Nat × Client)) (c : Nat) (hc : lookupM clients c = none)
    (hd : ∀ t, t ∈ disputed → ∃ r, lookupM records t = some r ∧
      (lookupM clients r.client_id).isSome = true) :
    owed records disputed c = 0 := by
  induction disputed with
  | nil => rfl
  | cons a l ih =>
      rw [owed_cons]
      have h1 : contrib records c a = 0 := by
        obtain ⟨r, hr, hpres⟩ := hd a (List.mem_cons_self a l)
        unfold contrib
        rw [hr]
        by_cases hrc : r.client_id = c
        · rw [hrc, hc] at hpres
          simp at hpres
        · simp [hrc]
      rw [h1, ih (fun t ht => hd t (List.mem_cons_of_mem a ht))]
      norm_num

/-- The inductive invariant behind the non-negativity of balances: the dispute
set has no duplicates, all recorded amounts are non-negative, every disputed id
has a deposit-typed record whose owner has an account, and every account has
non-negative available funds with held funds equal to the owed sum. -/
structure Inv (s : EngineState) : Prop where
  nodup : s.disputed_transaction.Nodup
  recNonneg : ∀ t r, lookupM s.transaction_records t = some r → 0 ≤ r.amount
  disputedRec : ∀ t, t ∈ s.disputed_transaction →
    ∃ r, lookupM s.transaction_records t = some r ∧
      r.transaction_type = TransactionType.Deposit ∧
      (lookupM s.clients r.client_id).isSome = true
  clientOk : ∀ c cl, lookupM s.clients c = some cl →
    0 ≤ cl.available_funds ∧
    cl.held_funds = owed s.transaction_records s.disputed_transaction c

theorem getClient_inv (s : EngineState) (h : Inv s) (c : Nat) :
    0 ≤ (getClient s.clients c).available_funds ∧
    (getClient s.clients c).held_funds
      = owed s.transaction_records s.disputed_transaction c := by
  unfold getClient
  cases hc : lookupM s.clients c with
  | some cl => simpa using h.clientOk c cl hc
  | none =>
      constructor
      · simp [defaultClient]
      · have hz := owed_eq_zero s.transaction_records s.disputed_transaction s.clients c hc
          (fun t ht => by
            obtain ⟨r, hr, _, hp⟩ := h.disputedRec t ht
            exact ⟨r, hr, hp⟩)
        simp [defaultClient, hz]

theorem lookupM_ens_cases (m : List (Nat × Client)) (c0 c : Nat) (cl : Client)
    (hc : lookupM (ensureClient m c0) c = some cl) :
    (c = c0 ∧ cl = getClient m c0) ∨ (c ≠ c0 ∧ lookupM m c = some cl) := by
  by_cases hcc : c = c0
  · subst hcc
    rw [lookupM_ensureClient_self] at hc
    left
    exact ⟨rfl, by injection hc with h; exact h.symm⟩
  · right
    rw [lookupM_ensureClient_ne m c0 c (fun hk => hcc hk.symm)] at hc
    exact ⟨hcc, hc⟩

theorem lookupM_upd_ens_cases (m : List (Nat × Client)) (c0 c : Nat) (f : Client → Client)
    (cl : Client)
    (hc : lookupM (updateClient (ensureClient m c0) c0 f) c = some cl) :
    (c = c0 ∧ cl = f (getClient m c0)) ∨ (c ≠ c0 ∧ lookupM m c = some cl) := by
  by_cases hcc : c = c0
  · subst hcc
    rw [lookupM_updateClient_self, lookupM_ensureClient_self] at hc
    left
    refine ⟨rfl, ?_⟩
    simp at hc
    exact hc.symm
  · right
    rw [lookupM_updateClient_ne _ c0 c f (fun hk => hcc hk.symm),
      lookupM_ensureClient_ne m c0 c (fun hk => hcc hk.symm)] at hc
    exact ⟨hcc, hc⟩

/-- One engine step preserves the invariant, provided the event's amount (if
present) is non-negative and, when it is a Chargeback, the deposit record under
its transaction id (if any) is owned by the event's client. -/
theorem inv_step (s : EngineState) (tx : Transaction) (h : Inv s)
    (hamt : ∀ a, tx.amount = some a → 0 ≤ a)
    (hcb : tx.kind = TransactionType.Chargeback →
      ∀ r, lookupM s.transaction_records tx.id = some r →
        r.transaction_type = TransactionType.Deposit → r.client_id = tx.client_id) :
    Inv (processOne s tx) := by
  rcases processOne_cases s tx with heq | ⟨hl, hcases⟩
  · rw [heq]
    refine ⟨h.nodup, h.recNonneg, ?_, ?_⟩
    · intro t ht
      obtain ⟨r, hr, hrt, hp⟩ := h.disputedRec t ht
      exact ⟨r, hr, hrt, isSome_lookupM_ensureClient _ _ _ hp⟩
    · intro c cl hc
      rcases lookupM_ens_cases s.clients tx.client_id c cl hc with ⟨hceq, hcl⟩ | ⟨hne, hcl⟩
      · subst hceq
        rw [hcl]
        exact getClient_inv s h tx.client_id
      · exact h.clientOk c cl hcl
  · rcases hcases with ⟨a, hk, ha, hid, heq⟩ | ⟨a, hk, ha, hid, hav, heq⟩ |
      ⟨r, hk, hd, hr, hrc, hrt, hav, heq⟩ | ⟨r, hk, hd, hr, hrc, heq⟩ | ⟨r, hk, hd, hr, heq⟩
    · -- Deposit applied
      rw [heq]
      have ha0 : 0 ≤ a := hamt a ha
      have hfresh : ∀ t, t ∈ s.disputed_transaction → t ≠ tx.id := by
        intro t ht hteq
        obtain ⟨r0, hr0, _, _⟩ := h.disputedRec t ht
        rw [hteq, hid] at hr0
        exact Option.noConfusion hr0
      have howed : ∀ c', owed (insertM s.transaction_records tx.id
          ⟨tx.client_id, a, TransactionType.Deposit⟩) s.disputed_transaction c'
          = owed s.transaction_records s.disputed_transaction c' :=
        fun c' => owed_insertM_fresh _ _ c' _ _ hfresh
      refine ⟨h.nodup, ?_, ?_, ?_⟩
      · intro t r0 hr0
        by_cases htk : tx.id = t
        · subst htk
          rw [lookupM_insertM_self] at hr0
          injection hr0 with hh
          rw [← hh]
          exact ha0
        · rw [lookupM_insertM_ne _ _ _ _ htk] at hr0
          exact h.recNonneg t r0 hr0
      · intro t ht
        obtain ⟨r0, hr0, hrt0, hp0⟩ := h.disputedRec t ht
        have htne : tx.id ≠ t := fun hteq => (hfresh t ht) hteq.symm
        refine ⟨r0, ?_, hrt0,
          isSome_lookupM_updateClient _ _ _ _ (isSome_lookupM_ensureClient _ _ _ hp0)⟩
        rw [lookupM_insertM_ne _ _ _ _ htne]
        exact hr0
      · intro c cl hc
        rcases lookupM_upd_ens_cases s.clients tx.client_id c _ cl hc with
          ⟨hceq, hcl⟩ | ⟨hne, hcl⟩
        · subst hceq
          rw [hcl]
          obtain ⟨hg1, hg2⟩ := getClient_inv s h tx.client_id
          constructor
          · exact add_nonneg hg1 ha0
          · show (getClient s.clients tx.client_id).held_funds = _
            rw [howed tx.client_id]
            exact hg2
        · obtain ⟨h1, h2⟩ := h.clientOk c cl hcl
          refine ⟨h1, ?_⟩
          rw [howed c]
          exact h2
    · -- Withdrawal applied
      rw [heq]
      have ha0 : 0 ≤ a := hamt a ha
      have hfresh : ∀ t, t ∈ s.disputed_transaction → t ≠ tx.id := by
        intro t ht hteq
        obtain ⟨r0, hr0, _, _⟩ := h.disputedRec t ht
        rw [hteq, hid] at hr0
        exact Option.noConfusion hr0
      have howed : ∀ c', owed (insertM s.transaction_records tx.id
          ⟨tx.client_id, a, TransactionType.Withdrawal⟩) s.disputed_transaction c'
          = owed s.transaction_records s.disputed_transaction c' :=
        fun c' => owed_insertM_fresh _ _ c' _ _ hfresh
      refine ⟨h.nodup, ?_, ?_, ?_⟩
      · intro t r0 hr0
        by_cases htk : tx.id = t
        · subst htk
          rw [lookupM_insertM_self] at hr0
          injection hr0 with hh
          rw [← hh]
          exact ha0
        · rw [lookupM_insertM_ne _ _ _ _ htk] at hr0
          exact h.recNonneg t r0 hr0
      · intro t ht
        obtain ⟨r0, hr0, hrt0, hp0⟩ := h.disputedRec t ht
        have htne : tx.id ≠ t := fun hteq => (hfresh t ht) hteq.symm
        refine ⟨r0, ?_, hrt0,
          isSome_lookupM_updateClient _ _ _ _ (isSome_lookupM_ensureClient _ _ _ hp0)⟩
        rw [lookupM_insertM_ne _ _ _ _ htne]
        exact hr0
      · intro c cl hc
        rcases lookupM_upd_ens_cases s.clients tx.client_id c _ cl hc with
          ⟨hceq, hcl⟩ | ⟨hne, hcl⟩
        · subst hceq
          rw [hcl]
          obtain ⟨hg1, hg2⟩ := getClient_inv s h tx.client_id
          constructor
          · exact sub_nonneg.mpr (not_lt.mp hav)
          · show (getClient s.clients tx.client_id).held_funds = _
            rw [howed tx.client_id]
            exact hg2
        · obtain ⟨h1, h2⟩ := h.clientOk c cl hcl
          refine ⟨h1, ?_⟩
          rw [howed c]
          exact h2
    · -- Dispute applied
      rw [heq]
      refine ⟨List.nodup_cons.mpr ⟨hd, h.nodup⟩, h.recNonneg, ?_, ?_⟩
      · intro t ht
        rcases List.mem_cons.mp ht with heq2 | ht'
        · subst heq2
          refine ⟨r, hr, hrt, ?_⟩
          rw [hrc]
          refine isSome_lookupM_updateClient _ _ _ _ ?_
          rw [lookupM_ensureClient_self]
          rfl
        · obtain ⟨r0, hr0, hrt0, hp0⟩ := h.disputedRec t ht'
          exact ⟨r0, hr0, hrt0,
            isSome_lookupM_updateClient _ _ _ _ (isSome_lookupM_ensureClient _ _ _ hp0)⟩
      · intro c cl hc
        rcases lookupM_upd_ens_cases s.clients tx.client_id c _ cl hc with
          ⟨hceq, hcl⟩ | ⟨hne, hcl⟩
        · subst hceq
          rw [hcl]
          obtain ⟨hg1, hg2⟩ := getClient_inv s h tx.client_id
          constructor
          · exact sub_nonneg.mpr (not_lt.mp hav)
          · show (getClient s.clients tx.client_id).held_funds + r.amount = _
            rw [owed_cons, hg2]
            have hcontrib : contrib s.transaction_records tx.client_id tx.id = r.amount := by
              unfold contrib
              rw [hr]
              simp [hrc]
            rw [hcontrib]
            ring
        · obtain ⟨h1, h2⟩ := h.clientOk c cl hcl
          refine ⟨h1, ?_⟩
          rw [owed_cons]
          have hcontrib : contrib s.transaction_records c tx.id = 0 := by
            unfold contrib
            rw [hr]
            have hrcne : ¬ r.client_id = c := by
              rw [hrc]
              exact fun hcc => hne hcc.symm
            simp [hrcne]
          rw [hcontrib, h2]
          ring
    · -- Resolve applied
      rw [heq]
      refine ⟨removeD_nodup _ _ h.nodup, h.recNonneg, ?_, ?_⟩
      · intro t ht
        obtain ⟨r0, hr0, hrt0, hp0⟩ := h.disputedRec t (mem_removeD _ _ _ ht)
        exact ⟨r0, hr0, hrt0,
          isSome_lookupM_updateClient _ _ _ _ (isSome_lookupM_ensureClient _ _ _ hp0)⟩
      · intro c cl hc
        have howed : ∀ c', owed s.transaction_records (removeD s.disputed_transaction tx.id) c'
            = owed s.transaction_records s.disputed_transaction c'
              - contrib s.transaction_records c' tx.id :=
          fun c' => owed_removeD _ _ c' _ h.nodup hd
        rcases lookupM_upd_ens_cases s.clients tx.client_id c _ cl hc with
          ⟨hceq, hcl⟩ | ⟨hne, hcl⟩
        · subst hceq
          rw [hcl]
          obtain ⟨hg1, hg2⟩ := getClient_inv s h tx.client_id
          constructor
          · exact add_nonneg hg1 (h.recNonneg tx.id r hr)
          · show (getClient s.clients tx.client_id).held_funds - r.amount = _
            rw [howed tx.client_id, hg2]
            have hcontrib : contrib s.transaction_records tx.client_id tx.id = r.amount := by
              unfold contrib
              rw [hr]
              simp [hrc]
            rw [hcontrib]
        · obtain ⟨h1, h2⟩ := h.clientOk c cl hcl
          refine ⟨h1, ?_⟩
          rw [howed c]
          have hcontrib : contrib s.transaction_records c tx.id = 0 := by
            unfold contrib
            rw [hr]
            have hrcne : ¬ r.client_id = c := by
              rw [hrc]
              exact fun hcc => hne hcc.symm
            simp [hrcne]
          rw [hcontrib, h2]
          ring
    · -- Chargeback applied
      obtain ⟨r0, hr0, hrt0, _⟩ := h.disputedRec tx.id hd
      have hrr : r0 = r := by
        rw [hr0] at hr
        injection hr
      subst hrr
      have hrc : r0.client_id = tx.client_id := hcb hk r0 hr hrt0
      rw [heq]
      refine ⟨removeD_nodup _ _ h.nodup, h.recNonneg, ?_, ?_⟩
      · intro t ht
        obtain ⟨r1, hr1, hrt1, hp1⟩ := h.disputedRec t (mem_removeD _ _ _ ht)
        exact ⟨r1, hr1, hrt1,
          isSome_lookupM_updateClient _ _ _ _ (isSome_lookupM_ensureClient _ _ _ hp1)⟩
      · intro c cl hc
        have howed : ∀ c', owed s.transaction_records (removeD s.disputed_transaction tx.id) c'
            = owed s.transaction_records s.disputed_transaction c'
              - contrib s.transaction_records c' tx.id :=
          fun c' => owed_removeD _ _ c' _ h.nodup hd
        rcases lookupM_upd_ens_cases s.clients tx.client_id c _ cl hc with
          ⟨hceq, hcl⟩ | ⟨hne, hcl⟩
        · subst hceq
          rw [hcl]
          obtain ⟨hg1, hg2⟩ := getClient_inv s h tx.client_id
          constructor
          · exact hg1
          · show (getClient s.clients tx.client_id).held_funds - r0.amount = _
            rw [howed tx.client_id, hg2]
            have hcontrib : contrib s.transaction_records tx.client_id tx.id = r0.amount := by
              unfold contrib
              rw [hr]
              simp [hrc]
            rw [hcontrib]
        · obtain ⟨h1, h2⟩ := h.clientOk c cl hcl
          refine ⟨h1, ?_⟩
          rw [howed c]
          have hcontrib : contrib s.transaction_records c tx.id = 0 := by
            unfold contrib
            rw [hr]
            have hrcne : ¬ r0.client_id = c := by
              rw [hrc]
              exact fun hcc => hne hcc.symm
            simp [hrcne]
          rw [hcontrib, h2]
          ring

theorem oks_cons_ok (tx : Transaction) (rest : List (Except Unit Transaction)) :
    oks (Except.ok tx :: rest) = tx :: oks rest := by
  simp [oks]

theorem oks_cons_error (e : Unit) (rest : List (Except Unit Transaction)) :
    oks (Except.error e :: rest) = oks rest := by
  simp [oks]

/-- Every well-formed event's amount, when present, is non-negative. -/
def amountsNonneg (l : List (Except Unit Transaction)) : Prop :=
  ∀ tx, tx ∈ oks l → ∀ a, tx.amount = some a → 0 ≤ a

/-- Every Chargeback names the same client as any Deposit sharing its
transaction id (the hypothesis the source's missing chargeback client check
would otherwise enforce). -/
def chargebackMatchesDeposit (l : List (Except Unit Transaction)) : Prop :=
  ∀ d, d ∈ oks l → ∀ cb, cb ∈ oks l → d.kind = TransactionType.Deposit →
    cb.kind = TransactionType.Chargeback → d.id = cb.id → d.client_id = cb.client_id

/-- Every pending Chargeback of the input agrees with the deposit records of
the current state on the owning client. -/
def cbSafe (s : EngineState) (l : List (Except Unit Transaction)) : Prop :=
  ∀ cb, cb ∈ oks l → cb.kind = TransactionType.Chargeback →
    ∀ r, lookupM s.transaction_records cb.id = some r →
      r.transaction_type = TransactionType.Deposit → r.client_id = cb.client_id

theorem processOne_records_shape (s : EngineState) (tx : Transaction) :
    (processOne s tx).transaction_records = s.transaction_records ∨
    ∃ a, tx.amount = some a ∧ lookupM s.transaction_records tx.id = none ∧
      (processOne s tx).transaction_records
        = insertM s.transaction_records tx.id ⟨tx.client_id, a, tx.kind⟩ := by
  rcases processOne_cases s tx with heq | ⟨hl, hcases⟩
  · left
    rw [heq]
    rfl
  · rcases hcases with ⟨a, hk, ha, hid, heq⟩ | ⟨a, hk, ha, hid, hav, heq⟩ |
      ⟨r, hk, hd, hr, hrc, hrt, hav, heq⟩ | ⟨r, hk, hd, hr, hrc, heq⟩ | ⟨r, hk, hd, hr, heq⟩
    · right
      refine ⟨a, ha, hid, ?_⟩
      rw [heq, hk]
    · right
      refine ⟨a, ha, hid, ?_⟩
      rw [heq, hk]
    · left
      rw [heq]
    · left
      rw [heq]
    · left
      rw [heq]

theorem cbSafe_step (s : EngineState) (tx : Transaction)
    (rest : List (Except Unit Transaction))
    (hsafe : cbSafe s (Except.ok tx :: rest))
    (hmatch : chargebackMatchesDeposit (Except.ok tx :: rest)) :
    cbSafe (processOne s tx) rest := by
  intro cb hcb hcbk r hr hrt
  have hcb' : cb ∈ oks (Except.ok tx :: rest) := by
    rw [oks_cons_ok]
    exact List.mem_cons_of_mem tx hcb
  rcases processOne_records_shape s tx with heq | ⟨a, ha, hid, heq⟩
  · rw [heq] at hr
    exact hsafe cb hcb' hcbk r hr hrt
  · by_cases hik : tx.id = cb.id
    · rw [heq, ← hik, lookupM_insertM_self] at hr
      injection hr with hh
      have hkd : tx.kind = TransactionType.Deposit := by
        rw [← hh] at hrt
        exact hrt
      have hcc := hmatch tx (by rw [oks_cons_ok]; exact List.mem_cons_self tx _)
        cb hcb' hkd hcbk hik
      rw [← hh]
      exact hcc
    · rw [heq, lookupM_insertM_ne _ _ _ _ hik] at hr
      exact hsafe cb hcb' hcbk r hr hrt

theorem inv_initState : Inv initState := by
  refine ⟨List.nodup_nil, ?_, ?_, ?_⟩
  · intro t r h
    simp [initState, lookupM] at h
  · intro t ht
    simp [initState] at ht
  · intro c cl h
    simp [initState, lookupM] at h

theorem inv_processList (l : List (Except Unit Transaction)) :
    ∀ s : EngineState, Inv s → amountsNonneg l → chargebackMatchesDeposit l →
      cbSafe s l → Inv (processList s l) := by
  induction l with
  | nil => intro s h _ _ _; exact h
  | cons r rest ih =>
      intro s h hamt hmatch hsafe
      cases r with
      | error e =>
          refine ih s h ?_ ?_ ?_
          · intro tx htx
            exact hamt tx (by rw [oks_cons_error]; exact htx)
          · intro d hd cb hcb
            exact hmatch d (by rw [oks_cons_error]; exact hd)
              cb (by rw [oks_cons_error]; exact hcb)
          · intro cb hcb
            exact hsafe cb (by rw [oks_cons_error]; exact hcb)
      | ok tx =>
          have hamt_tx : ∀ a, tx.amount = some a → 0 ≤ a :=
            hamt tx (by rw [oks_cons_ok]; exact List.mem_cons_self tx _)
          have hcb_tx : tx.kind = TransactionType.Chargeback →
              ∀ r0, lookupM s.transaction_records tx.id = some r0 →
                r0.transaction_type = TransactionType.Deposit →
                r0.client_id = tx.client_id :=
            fun hk r0 hr0 hrt0 =>
              hsafe tx (by rw [oks_cons_ok]; exact List.mem_cons_self tx _) hk r0 hr0 hrt0
          refine ih (processOne s tx) (inv_step s tx h hamt_tx hcb_tx) ?_ ?_ ?_
          · intro tx0 htx0
            exact hamt tx0 (by rw [oks_cons_ok]; exact List.mem_cons_of_mem tx htx0)
          · intro d hd cb hcb
            exact hmatch d (by rw [oks_cons_ok]; exact List.mem_cons_of_mem tx hd)
              cb (by rw [oks_cons_ok]; exact List.mem_cons_of_mem tx hcb)
          · exact cbSafe_step s tx rest hsafe hmatch

/-- C1 as frozen is false: the Chargeback arm of the source never compares the
event's client id with the disputed record's owner, so a chargeback issued
under a different client id debits that other client's account.  After
deposit(c1, tx1, 5), dispute(c1, tx1), chargeback(c2, tx1), client 2 ends with
held = total = -5 (and locked), violating held >= 0. -/
theorem c1_counterexample :
    lookupM (processList initState
        [Except.ok ⟨TransactionType.Deposit, 1, 1, some 5⟩,
         Except.ok ⟨TransactionType.Dispute, 1, 1, none⟩,
         Except.ok ⟨TransactionType.Chargeback, 2, 1, none⟩]).clients 2
      = some ⟨0, -5, -5, true⟩ ∧ ((-5 : ℚ) < 0) := by
  constructor
  · norm_num [processList, processRecord, processOne, processKind, afterEntry,
      depositArm, withdrawalArm, disputeArm, resolveArm, chargebackArm, ensureClient,
      getClient, lookupM, insertM, updateClient, removeD, defaultClient, initState]
  · norm_num

/-- **C1** (amended): provided every well-formed event's amount is non-negative
and every Chargeback names the same client id as the Deposit that created the
record under its transaction id, every client present in the result of the run
has available >= 0 and held >= 0; since every intermediate state is itself the
result of a run of a (prefix) input satisfying the same hypotheses, this holds
after every processed event. -/
theorem c1_balances_nonneg (l : List (Except Unit Transaction))
    (h1 : amountsNonneg l) (h2 : chargebackMatchesDeposit l) (c : Nat) (cl : Client)
    (hc : lookupM (processList initState l).clients c = some cl) :
    0 ≤ cl.available_funds ∧ 0 ≤ cl.held_funds := by
  have hsafe0 : cbSafe initState l := by
    intro cb hcb hk r hr hrt
    simp [initState, lookupM] at hr
  have hInv := inv_processList l initState inv_initState h1 h2 hsafe0
  obtain ⟨hav, hheld⟩ := hInv.clientOk c cl hc
  refine ⟨hav, ?_⟩
  rw [hheld]
  exact owed_nonneg _ _ c hInv.recNonneg

theorem c1_balances_nonneg_witness :
    (0 : ℚ) ≤ (⟨0, 0, 0, true⟩ : Client).available_funds ∧
    (0 : ℚ) ≤ (⟨0, 0, 0, true⟩ : Client).held_funds :=
  c1_balances_nonneg
    [Except.ok ⟨TransactionType.Deposit, 1, 1, some 5⟩,
     Except.ok ⟨TransactionType.Dispute, 1, 1, none⟩,
     Except.ok ⟨TransactionType.Chargeback, 1, 1, none⟩]
    (by
      intro tx htx a ha
      simp [oks] at htx
      rcases htx with rfl | rfl | rfl <;> simp_all
      rw [← ha]
      norm_num)
    (by
      intro d hd cb hcb hdk hcbk hij
      simp [oks] at hd hcb
      rcases hd with rfl | rfl | rfl <;> rcases hcb with rfl | rfl | rfl <;> simp_all)
    1 ⟨0, 0, 0, true⟩
    (by norm_num [processList, processRecord, processOne, processKind, afterEntry,
      depositArm, withdrawalArm, disputeArm, resolveArm, chargebackArm, ensureClient,
      getClient, lookupM, insertM, updateClient, removeD, defaultClient, initState])

end TransactionEngine
